import Mathlib

/-!
# netstringer: a streaming netstring decoder and its encoder

A shallow embedding of `netstringer.go`.

* Bytes are `UInt8`; byte slices are `List UInt8`.
* Go `int` is modelled as `Int` wrapped to the signed 64-bit range by `wrapInt`
  at every arithmetic operation that can leave that range.
* The two buffered output channels are modelled as the lists of messages sent on them,
  oldest first.
* A run-time panic (index or slice out of range) is the outcome `Outcome.panic`.
* A send never blocks: the consumers of the two channels are taken to keep draining them.
-/

namespace Netstringer

/-- Wrap an integer to the range of a signed 64-bit Go `int`. -/
def wrapInt (x : Int) : Int := (x + 2 ^ 63) % 2 ^ 64 - 2 ^ 63

/-- The package function `min` on `int`. -/
protected def min (a b : Int) : Int := if a < b then a else b

/-- The parser states, `parseLength = iota` onwards. -/
inductive ParseState where
  | parseLength
  | parseBinLength
  | parseSeparator
  | parseData
  | parseEnd
  deriving DecidableEq, Repr

/-- The Go struct `TextBinaryMsg`. -/
structure TextBinaryMsg where
  Data : List UInt8
  TextLength : Int
  deriving DecidableEq, Repr

/-- The Go struct `NetStringDecoder`. -/
structure NetStringDecoder where
  parsedData : List UInt8
  length : Int
  binLength : Int
  state : ParseState
  DataOutput : List (List UInt8)
  TextBinDataOutput : List TextBinaryMsg
  separatorSymbol : UInt8
  separatorLengthSymbol : UInt8
  endSymbol : UInt8
  debugMode : Bool
  deriving DecidableEq, Repr

/-- The result of running code that may panic or, in the fuelled loop, run out of fuel. -/
inductive Outcome where
  | done (d : NetStringDecoder)
  | panic
  | outOfFuel
  deriving DecidableEq, Repr

/-- The constructor `NewDecoder`: the fields not listed in the Go literal take their zero values. -/
def NewDecoder : NetStringDecoder :=
  { parsedData := []
    length := 0
    binLength := 0
    state := ParseState.parseLength
    DataOutput := []
    TextBinDataOutput := []
    separatorSymbol := 58
    separatorLengthSymbol := 44
    endSymbol := 44
    debugMode := false }

namespace NetStringDecoder

/-- The method `SetEndSymbol`. -/
def SetEndSymbol (decoder : NetStringDecoder) (symbol : UInt8) : NetStringDecoder :=
  { decoder with endSymbol := symbol }

/-- The method `SetDebugMode`. -/
def SetDebugMode (decoder : NetStringDecoder) (mode : Bool) : NetStringDecoder :=
  { decoder with debugMode := mode }

/-- The method `reset`. -/
def reset (decoder : NetStringDecoder) : NetStringDecoder :=
  { decoder with length := 0, binLength := 0, parsedData := [], state := ParseState.parseLength }

/-- The method `sendData`: a send on a channel appends to the list of messages sent on it. -/
def sendData (decoder : NetStringDecoder) (parsedData : List UInt8) : NetStringDecoder :=
  if decoder.binLength = 0 then
    { decoder with DataOutput := decoder.DataOutput ++ [parsedData] }
  else
    { decoder with
      TextBinDataOutput := decoder.TextBinDataOutput ++
        [{ Data := parsedData
           TextLength := wrapInt ((parsedData.length : Int) - decoder.binLength) }] }

/-- The method `parseLength`: `none` is the panic of `data[i]` out of range. -/
def parseLength (decoder : NetStringDecoder) (i : Nat) (data : List UInt8) :
    Option (NetStringDecoder × Nat) :=
  match data[i]? with
  | none => none
  | some symbol =>
    if symbol ≥ 48 ∧ symbol ≤ 57 then
      some ({ decoder with
              length := wrapInt (decoder.length * 10 + ((symbol.toNat : Int) - 48)) }, i + 1)
    else
      some ({ decoder with state := ParseState.parseSeparator }, i)

/-- The method `parseBinLength`. -/
def parseBinLength (decoder : NetStringDecoder) (i : Nat) (data : List UInt8) :
    Option (NetStringDecoder × Nat) :=
  match data[i]? with
  | none => none
  | some symbol =>
    if symbol ≥ 48 ∧ symbol ≤ 57 then
      some ({ decoder with
              binLength := wrapInt (decoder.binLength * 10 + ((symbol.toNat : Int) - 48)) },
            i + 1)
    else
      some ({ decoder with state := ParseState.parseSeparator }, i)

/-- The method `parseSeparator`: the `switch` tries `separatorSymbol` first. -/
def parseSeparator (decoder : NetStringDecoder) (i : Nat) (data : List UInt8) :
    Option (NetStringDecoder × Nat) :=
  match data[i]? with
  | none => none
  | some symbol =>
    if symbol = decoder.separatorSymbol then
      some ({ decoder with
              length := wrapInt (decoder.length + decoder.binLength)
              state := ParseState.parseData }, i + 1)
    else if symbol = decoder.separatorLengthSymbol then
      some ({ decoder with state := ParseState.parseBinLength }, i + 1)
    else
      some (decoder.reset, i + 1)

/-- The Go slice expression `data[lo:hi]`; `none` is the panic "slice bounds out of range".
Go checks `hi` against the capacity; the length is used here, which is never larger. -/
def goSlice (data : List UInt8) (lo hi : Int) : Option (List UInt8) :=
  if 0 ≤ lo ∧ lo ≤ hi ∧ hi ≤ (data.length : Int) then
    some ((data.drop lo.toNat).take (hi - lo).toNat)
  else
    none

/-- The method `parseData`. `dataSize`, `i + dataLength` and `length - dataLength` stay inside the
`int` range whenever `length` is (as `0 ≤ dataLength ≤ length` once the slice is taken),
so they carry no wrap. -/
def parseData (decoder : NetStringDecoder) (i : Nat) (data : List UInt8) :
    Option (NetStringDecoder × Nat) :=
  match data[i]? with
  | none => none
  | some _ =>
    let dataSize : Int := (data.length : Int) - (i : Int)
    let dataLength : Int := Netstringer.min decoder.length dataSize
    match goSlice data (i : Int) ((i : Int) + dataLength) with
    | none => none
    | some chunk =>
      let length := decoder.length - dataLength
      some ({ decoder with
              parsedData := decoder.parsedData ++ chunk
              length := length
              state := if length = 0 then ParseState.parseEnd else decoder.state },
            ((i : Int) + dataLength).toNat)

/-- The method `parseEnd`: the deferred `reset` runs after `sendData`. -/
def parseEnd (decoder : NetStringDecoder) (i : Nat) (data : List UInt8) :
    Option (NetStringDecoder × Nat) :=
  match data[i]? with
  | none => none
  | some symbol =>
    if symbol = decoder.endSymbol then
      some ((decoder.sendData decoder.parsedData).reset, i + 1)
    else
      some (decoder.reset, i)

/-- The method `parse`. -/
def parse (decoder : NetStringDecoder) (i : Nat) (data : List UInt8) :
    Option (NetStringDecoder × Nat) :=
  match decoder.state with
  | ParseState.parseLength => decoder.parseLength i data
  | ParseState.parseBinLength => decoder.parseBinLength i data
  | ParseState.parseSeparator => decoder.parseSeparator i data
  | ParseState.parseData => decoder.parseData i data
  | ParseState.parseEnd => decoder.parseEnd i data

/-- The loop `for i < len(data) { i = decoder.parse(i, data) }`, bounded by `fuel` steps. -/
def feedLoop : Nat → NetStringDecoder → Nat → List UInt8 → Outcome
  | 0, decoder, i, data => if i < data.length then Outcome.outOfFuel else Outcome.done decoder
  | fuel + 1, decoder, i, data =>
    if i < data.length then
      match decoder.parse i data with
      | none => Outcome.panic
      | some (decoder', i') => feedLoop fuel decoder' i' data
    else
      Outcome.done decoder

/-- The method `FeedData`. Four steps per byte are enough for the loop to end
(see `feedLoop_fuel_irrelevant`), so the outcome is never `outOfFuel`. -/
def FeedData (decoder : NetStringDecoder) (data : List UInt8) : Outcome :=
  feedLoop (4 * data.length + 4) decoder 0 data

end NetStringDecoder

/-- The byte of a decimal digit. -/
def digitByte (d : Nat) : UInt8 := UInt8.ofNat (48 + d % 10)

/-- The digits of `n`, most significant first, with `fuel` bounding the recursion. -/
def formatDigits : Nat → Nat → List UInt8
  | 0, _ => []
  | fuel + 1, n =>
    if n < 10 then [digitByte n] else formatDigits fuel (n / 10) ++ [digitByte n]

/-- The function `strconv.FormatInt(n, 10)` of the Go standard library, for `n ≥ 0`. -/
def FormatInt (n : Nat) : List UInt8 := formatDigits (n + 1) n

/-- The function `Encode`: the writes to the `bytes.Buffer` in order. -/
def Encode (data : List UInt8) : List UInt8 :=
  let buffer : List UInt8 := []
  let length := FormatInt data.length
  let buffer := buffer ++ length
  let buffer := buffer ++ [58]
  let buffer := buffer ++ data
  let buffer := buffer ++ [44]
  buffer

/-- Successive `FeedData` calls, one per chunk; a panic ends the run. -/
def feedAll : Outcome → List (List UInt8) → Outcome
  | Outcome.done decoder, chunk :: chunks => feedAll (decoder.FeedData chunk) chunks
  | outcome, _ => outcome

/-- Go on with `f` from the decoder an outcome ended with; a panic stays a panic. -/
def Outcome.andThen (o : Outcome) (f : NetStringDecoder → Outcome) : Outcome :=
  match o with
  | Outcome.done d => f d
  | Outcome.panic => Outcome.panic
  | Outcome.outOfFuel => Outcome.outOfFuel

/-- The bytes of an ASCII string literal. -/
def bytes (s : String) : List UInt8 := s.data.map (fun c => UInt8.ofNat c.toNat)

/-- A decoder in state `parseEnd` in which no field that `reset` or `sendData` touches has
its zero value, and neither sink is empty. -/
def busyEndDecoder : NetStringDecoder :=
  { parsedData := bytes "hi"
    length := 5
    binLength := 3
    state := ParseState.parseEnd
    DataOutput := [bytes "x"]
    TextBinDataOutput := [{ Data := bytes "yz", TextLength := 1 }]
    separatorSymbol := 58
    separatorLengthSymbol := 44
    endSymbol := 44
    debugMode := false }


/-- The decimal string as the specification words it: the base-10 ASCII digits of `n`,
most significant first, with no sign and no leading zeros, and `"0"` for zero. -/
def decimal (n : Nat) : List UInt8 :=
  if n = 0 then [48] else (Nat.digits 10 n).reverse.map (fun d => UInt8.ofNat (48 + d))

/-- The number a string of ASCII digits denotes in base 10. -/
def decimalValue (ds : List UInt8) : Nat :=
  ds.foldl (fun a b => a * 10 + (b.toNat - 48)) 0

/-- A malformed frame header in the words of the specification: zero or more ASCII digits
`ds`, optionally followed by `','` and zero or more ASCII digits `bin`, followed by the one
byte `x` (which is to be neither a digit nor `':'` nor `','`). -/
def malformedHeader (ds : List UInt8) (bin : Option (List UInt8)) (x : UInt8) : List UInt8 :=
  match bin with
  | none => ds ++ [x]
  | some bs => ds ++ 44 :: (bs ++ [x])

/-- How far a state is from the one that surely consumes a byte. -/
def stateRank : ParseState → Nat
  | ParseState.parseData => 0
  | ParseState.parseEnd => 1
  | ParseState.parseLength => 2
  | ParseState.parseBinLength => 2
  | ParseState.parseSeparator => 3

/-- The number of parse steps that can still be needed at index `i`. -/
def stepsLeft (decoder : NetStringDecoder) (i : Nat) (data : List UInt8) : Nat :=
  4 * (data.length - i) + 3 - stateRank decoder.state

/-- The value the decoder accumulates from `acc` over the digit bytes `ds`. -/
def foldDigits (acc : Int) (ds : List UInt8) : Int :=
  ds.foldl (fun a b => wrapInt (a * 10 + ((b.toNat : Int) - 48))) acc

/-- A decoder between frames: the state `reset` leaves, with the symbols of `NewDecoder`. -/
def Fresh (d : NetStringDecoder) : Prop :=
  d.state = ParseState.parseLength ∧ d.length = 0 ∧ d.binLength = 0 ∧ d.parsedData = [] ∧
    d.separatorSymbol = 58 ∧ d.separatorLengthSymbol = 44

/-- Both length fields of a decoder are non-negative. -/
def NonNeg (d : NetStringDecoder) : Prop := 0 ≤ d.length ∧ 0 ≤ d.binLength

/-- The decoder states a caller can bring about from `NewDecoder`, by `SetEndSymbol`, by
`SetDebugMode` and by the parse steps of `FeedData` calls, when only steps into states that
satisfy `ok` are followed. With `ok` always true these are at least all the states a run
passes through. -/
inductive Reachable (ok : NetStringDecoder → Prop) : NetStringDecoder → Prop
  | init : Reachable ok NewDecoder
  | setEndSymbol {d : NetStringDecoder} (symbol : UInt8) :
      Reachable ok d → Reachable ok (d.SetEndSymbol symbol)
  | setDebugMode {d : NetStringDecoder} (mode : Bool) :
      Reachable ok d → Reachable ok (d.SetDebugMode mode)
  | step {d d' : NetStringDecoder} {i i' : Nat} {data : List UInt8} :
      Reachable ok d → d.parse i data = some (d', i') → ok d' → Reachable ok d'

/-- The header states hold no left-over of an earlier frame. -/
def CleanHeader (d : NetStringDecoder) : Prop :=
  (d.state = ParseState.parseLength → d.binLength = 0 ∧ d.parsedData = []) ∧
    (d.state = ParseState.parseBinLength ∨ d.state = ParseState.parseSeparator →
      d.parsedData = [])

/-- What holds in every state reached through states with non-negative lengths: the lengths
are in the `int` range, every mixed message delivered so far has its split point inside its
data, the buffer is empty in the header states, and while the payload is read the binary
length is at most the payload length `len parsedData + length`. -/
def SplitInv (d : NetStringDecoder) : Prop :=
  0 ≤ d.length ∧ d.length < 2 ^ 63 ∧ 0 ≤ d.binLength ∧ d.binLength < 2 ^ 63 ∧
    (∀ m ∈ d.TextBinDataOutput, 0 ≤ m.TextLength ∧ m.TextLength < (m.Data.length : Int)) ∧
    (d.state = ParseState.parseData →
      d.binLength ≤ (d.parsedData.length : Int) + d.length ∧
        (d.parsedData.length : Int) + d.length < 2 ^ 63) ∧
    (d.state = ParseState.parseEnd →
      d.binLength ≤ (d.parsedData.length : Int) ∧ (d.parsedData.length : Int) < 2 ^ 63) ∧
    (d.state ≠ ParseState.parseData → d.state ≠ ParseState.parseEnd → d.parsedData = [])

/-! ## The loop ends: a measure that every parse step decreases -/

theorem min_eq (a b : Int) : Netstringer.min a b = min a b := by
  unfold Netstringer.min
  split <;> omega

theorem goSlice_eq_some {data : List UInt8} {lo hi : Int} {chunk : List UInt8}
    (h : NetStringDecoder.goSlice data lo hi = some chunk) :
    0 ≤ lo ∧ lo ≤ hi ∧ hi ≤ (data.length : Int) ∧
      chunk = (data.drop lo.toNat).take (hi - lo).toNat := by
  unfold NetStringDecoder.goSlice at h
  split at h
  · rename_i hc
    simp only [Option.some.injEq] at h
    exact ⟨hc.1, hc.2.1, hc.2.2, h.symm⟩
  · simp at h

theorem parse_bounds {d d' : NetStringDecoder} {i i' : Nat} {data : List UInt8}
    (h : i < data.length) (hp : d.parse i data = some (d', i')) :
    i ≤ i' ∧ i' ≤ data.length ∧ (i < i' ∨ stateRank d.state < stateRank d'.state) := by
  have hget : data[i]? = some data[i] := List.getElem?_eq_getElem h
  unfold NetStringDecoder.parse at hp
  split at hp
  · rename_i hs
    unfold NetStringDecoder.parseLength at hp
    rw [hget] at hp
    simp only at hp
    split at hp <;> simp only [Option.some.injEq, Prod.mk.injEq] at hp <;>
      obtain ⟨rfl, rfl⟩ := hp <;> simp [hs, stateRank] <;> omega
  · rename_i hs
    unfold NetStringDecoder.parseBinLength at hp
    rw [hget] at hp
    simp only at hp
    split at hp <;> simp only [Option.some.injEq, Prod.mk.injEq] at hp <;>
      obtain ⟨rfl, rfl⟩ := hp <;> simp [hs, stateRank] <;> omega
  · rename_i hs
    unfold NetStringDecoder.parseSeparator at hp
    rw [hget] at hp
    simp only at hp
    split at hp
    · simp only [Option.some.injEq, Prod.mk.injEq] at hp
      obtain ⟨rfl, rfl⟩ := hp
      simp; omega
    · split at hp <;> simp only [Option.some.injEq, Prod.mk.injEq] at hp <;>
        obtain ⟨rfl, rfl⟩ := hp <;> simp <;> omega
  · rename_i hs
    unfold NetStringDecoder.parseData at hp
    rw [hget] at hp
    simp only [min_eq] at hp
    split at hp
    · simp at hp
    · rename_i chunk hsl
      obtain ⟨h0, h1, h2, -⟩ := goSlice_eq_some hsl
      simp only [Option.some.injEq, Prod.mk.injEq] at hp
      obtain ⟨rfl, rfl⟩ := hp
      refine ⟨by omega, by omega, ?_⟩
      by_cases hz : d.length - min d.length ((data.length : Int) - (i : Int)) = 0
      · right
        simp [hz, hs, stateRank]
      · left
        omega
  · rename_i hs
    unfold NetStringDecoder.parseEnd at hp
    rw [hget] at hp
    simp only at hp
    split at hp <;> simp only [Option.some.injEq, Prod.mk.injEq] at hp <;>
      obtain ⟨rfl, rfl⟩ := hp <;>
      simp [hs, stateRank, NetStringDecoder.reset, NetStringDecoder.sendData] <;> omega

theorem stateRank_le (s : ParseState) : stateRank s ≤ 3 := by
  cases s <;> simp [stateRank]

theorem stepsLeft_decreases {d d' : NetStringDecoder} {i i' : Nat} {data : List UInt8}
    (h : i < data.length) (hp : d.parse i data = some (d', i')) :
    stepsLeft d' i' data < stepsLeft d i data := by
  obtain ⟨h1, h2, h3⟩ := parse_bounds h hp
  have r1 := stateRank_le d.state
  have r2 := stateRank_le d'.state
  unfold stepsLeft
  omega

theorem feedLoop_of_ge {d : NetStringDecoder} {i : Nat} {data : List UInt8}
    (h : data.length ≤ i) (fuel : Nat) :
    NetStringDecoder.feedLoop fuel d i data = Outcome.done d := by
  cases fuel <;> simp [NetStringDecoder.feedLoop, Nat.not_lt.mpr h]

/-- Any two amounts of fuel that cover `stepsLeft` give the same outcome. -/
theorem feedLoop_fuel_irrelevant (fuel1 : Nat) :
    ∀ (fuel2 : Nat) (d : NetStringDecoder) (i : Nat) (data : List UInt8),
      stepsLeft d i data ≤ fuel1 → stepsLeft d i data ≤ fuel2 →
      NetStringDecoder.feedLoop fuel1 d i data = NetStringDecoder.feedLoop fuel2 d i data := by
  induction fuel1 with
  | zero =>
    intro fuel2 d i data h1 _
    have r := stateRank_le d.state
    have hi : data.length ≤ i := by unfold stepsLeft at h1; omega
    rw [feedLoop_of_ge hi, feedLoop_of_ge hi]
  | succ n ih =>
    intro fuel2 d i data h1 h2
    by_cases hi : data.length ≤ i
    · rw [feedLoop_of_ge hi, feedLoop_of_ge hi]
    · have hlt : i < data.length := Nat.lt_of_not_le hi
      have r := stateRank_le d.state
      cases fuel2 with
      | zero => unfold stepsLeft at h2; omega
      | succ m =>
        simp only [NetStringDecoder.feedLoop, hlt, if_true]
        cases hp : d.parse i data with
        | none => rfl
        | some r =>
          obtain ⟨d', i'⟩ := r
          have hd := stepsLeft_decreases hlt hp
          exact ih m d' i' data (by omega) (by omega)

/-- With enough fuel the loop never reports `outOfFuel`: it ends or panics. -/
theorem feedLoop_ne_outOfFuel (fuel : Nat) :
    ∀ (d : NetStringDecoder) (i : Nat) (data : List UInt8),
      stepsLeft d i data ≤ fuel →
      NetStringDecoder.feedLoop fuel d i data ≠ Outcome.outOfFuel := by
  induction fuel with
  | zero =>
    intro d i data h1
    have r := stateRank_le d.state
    have hi : data.length ≤ i := by unfold stepsLeft at h1; omega
    rw [feedLoop_of_ge hi]
    simp
  | succ n ih =>
    intro d i data h1
    by_cases hi : data.length ≤ i
    · rw [feedLoop_of_ge hi]
      simp
    · have hlt : i < data.length := Nat.lt_of_not_le hi
      simp only [NetStringDecoder.feedLoop, hlt, if_true]
      cases hp : d.parse i data with
      | none => simp
      | some r =>
        obtain ⟨d', i'⟩ := r
        have hd := stepsLeft_decreases hlt hp
        exact ih d' i' data (by omega)

theorem stepsLeft_le_fuel (d : NetStringDecoder) (data : List UInt8) :
    stepsLeft d 0 data ≤ 4 * data.length + 4 := by
  unfold stepsLeft
  omega

theorem FeedData_ne_outOfFuel (d : NetStringDecoder) (data : List UInt8) :
    d.FeedData data ≠ Outcome.outOfFuel :=
  feedLoop_ne_outOfFuel _ d 0 data (stepsLeft_le_fuel d data)

/-! ## A parse step only looks at the bytes from index `i` on -/

theorem goSlice_drop (data : List UInt8) (i : Nat) (n : Int) (hi : i ≤ data.length) :
    NetStringDecoder.goSlice (data.drop i) 0 (0 + n) =
      NetStringDecoder.goSlice data (i : Int) ((i : Int) + n) := by
  unfold NetStringDecoder.goSlice
  by_cases hc : 0 ≤ n ∧ (i : Int) + n ≤ (data.length : Int)
  · have h1 : (0 : Int) ≤ 0 ∧ (0 : Int) ≤ 0 + n ∧ 0 + n ≤ ((data.drop i).length : Int) := by
      simp only [List.length_drop]
      omega
    have h2 : (0 : Int) ≤ (i : Int) ∧ (i : Int) ≤ (i : Int) + n ∧
        (i : Int) + n ≤ (data.length : Int) := by omega
    rw [if_pos h1, if_pos h2]
    have e1 : (0 + n - 0 : Int) = n := by omega
    have e2 : ((i : Int) + n - (i : Int) : Int) = n := by omega
    simp [e1, e2]
  · have h1 : ¬ ((0 : Int) ≤ 0 ∧ (0 : Int) ≤ 0 + n ∧ 0 + n ≤ ((data.drop i).length : Int)) := by
      simp only [List.length_drop]
      omega
    have h2 : ¬ ((0 : Int) ≤ (i : Int) ∧ (i : Int) ≤ (i : Int) + n ∧
        (i : Int) + n ≤ (data.length : Int)) := by omega
    rw [if_neg h1, if_neg h2]

theorem parse_drop (d : NetStringDecoder) {i : Nat} {data : List UInt8}
    (h : i < data.length) :
    d.parse 0 (data.drop i) = (d.parse i data).map (fun r => (r.1, r.2 - i)) := by
  have hget : data[i]? = some data[i] := List.getElem?_eq_getElem h
  have hget0 : (data.drop i)[0]? = some data[i] := by
    rw [List.getElem?_drop]
    simp [hget]
  unfold NetStringDecoder.parse
  cases d.state
  · simp only [NetStringDecoder.parseLength, hget, hget0]
    split <;> simp
  · simp only [NetStringDecoder.parseBinLength, hget, hget0]
    split <;> simp
  · simp only [NetStringDecoder.parseSeparator, hget, hget0]
    split
    · simp
    · split <;> simp
  · simp only [NetStringDecoder.parseData, hget, hget0, min_eq]
    have hl : (((data.drop i).length : Nat) : Int) - ((0 : Nat) : Int) =
        (data.length : Int) - (i : Int) := by
      simp only [List.length_drop]
      omega
    rw [hl]
    have hz : (((0 : Nat) : Int)) = 0 := rfl
    rw [hz, goSlice_drop data i _ (Nat.le_of_lt h)]
    cases hs : NetStringDecoder.goSlice data (i : Int)
        ((i : Int) + min d.length ((data.length : Int) - (i : Int))) with
    | none => simp
    | some chunk =>
      obtain ⟨h0, h1, h2, -⟩ := goSlice_eq_some hs
      simp only [Option.map_some', Option.some.injEq, Prod.mk.injEq, true_and]
      omega
  · simp only [NetStringDecoder.parseEnd, hget, hget0]
    split <;> simp

theorem feedLoop_drop (fuel : Nat) :
    ∀ (d : NetStringDecoder) (i : Nat) (data : List UInt8), i ≤ data.length →
      NetStringDecoder.feedLoop fuel d i data =
        NetStringDecoder.feedLoop fuel d 0 (data.drop i) := by
  induction fuel with
  | zero =>
    intro d i data _
    simp only [NetStringDecoder.feedLoop, List.length_drop]
    by_cases hi : i < data.length
    · rw [if_pos hi, if_pos (by omega)]
    · rw [if_neg hi, if_neg (by omega)]
  | succ n ih =>
    intro d i data hle
    by_cases hi : i < data.length
    · have h0 : 0 < (data.drop i).length := by simp only [List.length_drop]; omega
      simp only [NetStringDecoder.feedLoop, hi, h0, if_true]
      rw [parse_drop d hi]
      cases hp : d.parse i data with
      | none => rfl
      | some r =>
        obtain ⟨d', i'⟩ := r
        obtain ⟨b1, b2, -⟩ := parse_bounds hi hp
        simp only [Option.map_some']
        rw [ih d' i' data b2, ih d' (i' - i) (data.drop i)
          (by simp only [List.length_drop]; omega), List.drop_drop]
        congr 2
        omega
    · have h1 : data.length ≤ i := Nat.le_of_not_lt hi
      rw [feedLoop_of_ge h1, feedLoop_of_ge (by simp only [List.length_drop]; omega)]

theorem feedLoop_succ (fuel : Nat) (d : NetStringDecoder) (i : Nat) (data : List UInt8) :
    NetStringDecoder.feedLoop (fuel + 1) d i data =
      if i < data.length then
        match d.parse i data with
        | none => Outcome.panic
        | some r => NetStringDecoder.feedLoop fuel r.1 r.2 data
      else Outcome.done d := by
  rw [NetStringDecoder.feedLoop]
  split
  · cases d.parse i data <;> rfl
  · rfl

/-- One turn of the `FeedData` loop, stated on the bytes still to be read. -/
theorem FeedData_unfold (d : NetStringDecoder) (data : List UInt8) (h : data ≠ []) :
    d.FeedData data =
      match d.parse 0 data with
      | none => Outcome.panic
      | some r => r.1.FeedData (data.drop r.2) := by
  have hlen : 0 < data.length := List.length_pos.mpr h
  unfold NetStringDecoder.FeedData
  rw [show 4 * data.length + 4 = (4 * data.length + 3) + 1 from rfl, feedLoop_succ,
    if_pos hlen]
  cases hp : d.parse 0 data with
  | none => rfl
  | some r =>
    obtain ⟨d', i'⟩ := r
    obtain ⟨-, b2, -⟩ := parse_bounds hlen hp
    have hd := stepsLeft_decreases hlen hp
    have hf := stepsLeft_le_fuel d data
    simp only
    rw [feedLoop_drop _ d' i' data b2]
    apply feedLoop_fuel_irrelevant
    · have r1 := stateRank_le d'.state
      unfold stepsLeft at hd ⊢
      simp only [List.length_drop]
      omega
    · exact stepsLeft_le_fuel d' _

theorem FeedData_nil (d : NetStringDecoder) : d.FeedData [] = Outcome.done d := by
  simp [NetStringDecoder.FeedData, NetStringDecoder.feedLoop]

/-! ## What one loop turn does in each state -/

theorem FeedData_parseLength_digit (d : NetStringDecoder) (b : UInt8) (s : List UInt8)
    (hs : d.state = ParseState.parseLength) (hb : b ≥ 48 ∧ b ≤ 57) :
    d.FeedData (b :: s) =
      NetStringDecoder.FeedData
        { d with length := wrapInt (d.length * 10 + ((b.toNat : Int) - 48)) } s := by
  rw [FeedData_unfold d (b :: s) (by simp)]
  simp [NetStringDecoder.parse, hs, NetStringDecoder.parseLength, hb]

theorem FeedData_parseLength_other (d : NetStringDecoder) (b : UInt8) (s : List UInt8)
    (hs : d.state = ParseState.parseLength) (hb : ¬ (b ≥ 48 ∧ b ≤ 57)) :
    d.FeedData (b :: s) =
      NetStringDecoder.FeedData { d with state := ParseState.parseSeparator } (b :: s) := by
  rw [FeedData_unfold d (b :: s) (by simp)]
  simp [NetStringDecoder.parse, hs, NetStringDecoder.parseLength, hb]

theorem FeedData_parseBinLength_digit (d : NetStringDecoder) (b : UInt8) (s : List UInt8)
    (hs : d.state = ParseState.parseBinLength) (hb : b ≥ 48 ∧ b ≤ 57) :
    d.FeedData (b :: s) =
      NetStringDecoder.FeedData
        { d with binLength := wrapInt (d.binLength * 10 + ((b.toNat : Int) - 48)) } s := by
  rw [FeedData_unfold d (b :: s) (by simp)]
  simp [NetStringDecoder.parse, hs, NetStringDecoder.parseBinLength, hb]

theorem FeedData_parseBinLength_other (d : NetStringDecoder) (b : UInt8) (s : List UInt8)
    (hs : d.state = ParseState.parseBinLength) (hb : ¬ (b ≥ 48 ∧ b ≤ 57)) :
    d.FeedData (b :: s) =
      NetStringDecoder.FeedData { d with state := ParseState.parseSeparator } (b :: s) := by
  rw [FeedData_unfold d (b :: s) (by simp)]
  simp [NetStringDecoder.parse, hs, NetStringDecoder.parseBinLength, hb]

theorem FeedData_parseSeparator_data (d : NetStringDecoder) (b : UInt8) (s : List UInt8)
    (hs : d.state = ParseState.parseSeparator) (hb : b = d.separatorSymbol) :
    d.FeedData (b :: s) =
      NetStringDecoder.FeedData
        { d with length := wrapInt (d.length + d.binLength), state := ParseState.parseData }
        s := by
  rw [FeedData_unfold d (b :: s) (by simp)]
  simp [NetStringDecoder.parse, hs, NetStringDecoder.parseSeparator, hb]

theorem FeedData_parseSeparator_bin (d : NetStringDecoder) (b : UInt8) (s : List UInt8)
    (hs : d.state = ParseState.parseSeparator) (hb : b ≠ d.separatorSymbol)
    (hb2 : b = d.separatorLengthSymbol) :
    d.FeedData (b :: s) =
      NetStringDecoder.FeedData { d with state := ParseState.parseBinLength } s := by
  rw [FeedData_unfold d (b :: s) (by simp)]
  simp [NetStringDecoder.parse, hs, NetStringDecoder.parseSeparator, hb, ← hb2]

theorem FeedData_parseSeparator_other (d : NetStringDecoder) (b : UInt8) (s : List UInt8)
    (hs : d.state = ParseState.parseSeparator) (hb : b ≠ d.separatorSymbol)
    (hb2 : b ≠ d.separatorLengthSymbol) :
    d.FeedData (b :: s) = NetStringDecoder.FeedData d.reset s := by
  rw [FeedData_unfold d (b :: s) (by simp)]
  simp [NetStringDecoder.parse, hs, NetStringDecoder.parseSeparator, hb, hb2]

theorem FeedData_parseEnd_match (d : NetStringDecoder) (b : UInt8) (s : List UInt8)
    (hs : d.state = ParseState.parseEnd) (hb : b = d.endSymbol) :
    d.FeedData (b :: s) = NetStringDecoder.FeedData (d.sendData d.parsedData).reset s := by
  rw [FeedData_unfold d (b :: s) (by simp)]
  simp [NetStringDecoder.parse, hs, NetStringDecoder.parseEnd, hb]

theorem FeedData_parseEnd_other (d : NetStringDecoder) (b : UInt8) (s : List UInt8)
    (hs : d.state = ParseState.parseEnd) (hb : b ≠ d.endSymbol) :
    d.FeedData (b :: s) = NetStringDecoder.FeedData d.reset (b :: s) := by
  rw [FeedData_unfold d (b :: s) (by simp)]
  simp [NetStringDecoder.parse, hs, NetStringDecoder.parseEnd, hb]

theorem FeedData_parseData_neg (d : NetStringDecoder) (s : List UInt8)
    (hs : d.state = ParseState.parseData) (hne : s ≠ []) (hl : d.length < 0) :
    d.FeedData s = Outcome.panic := by
  rw [FeedData_unfold d s hne]
  have hlen : 0 < s.length := List.length_pos.mpr hne
  have hget : s[0]? = some s[0] := List.getElem?_eq_getElem hlen
  have hmin : min d.length (s.length : Int) = d.length := by
    apply min_eq_left
    omega
  have hsl : NetStringDecoder.goSlice s 0 d.length = none := by
    unfold NetStringDecoder.goSlice
    rw [if_neg]
    omega
  simp only [NetStringDecoder.parse, hs, NetStringDecoder.parseData, hget, Nat.cast_zero,
    zero_add, sub_zero, min_eq, hmin, hsl]

theorem FeedData_parseData (d : NetStringDecoder) (s : List UInt8) (n : Nat)
    (hs : d.state = ParseState.parseData) (hne : s ≠ []) (hl : d.length = (n : Int)) :
    d.FeedData s =
      NetStringDecoder.FeedData
        { d with
          parsedData := d.parsedData ++ s.take (min n s.length)
          length := ((n - min n s.length : Nat) : Int)
          state := if n ≤ s.length then ParseState.parseEnd else ParseState.parseData }
        (s.drop (min n s.length)) := by
  rw [FeedData_unfold d s hne]
  have hlen : 0 < s.length := List.length_pos.mpr hne
  have hget : s[0]? = some s[0] := List.getElem?_eq_getElem hlen
  have hmin : min d.length (s.length : Int) = ((min n s.length : Nat) : Int) := by
    rw [hl]
    omega
  have hsl : NetStringDecoder.goSlice s 0 ((min n s.length : Nat) : Int) =
        some (s.take (min n s.length)) := by
    unfold NetStringDecoder.goSlice
    rw [if_pos (by omega)]
    simp only [Int.toNat_zero, List.drop_zero, sub_zero, Int.toNat_ofNat]
  have hsub : d.length - ((min n s.length : Nat) : Int) =
      ((n - min n s.length : Nat) : Int) := by
    rw [hl]
    omega
  have hst : (if ((n - min n s.length : Nat) : Int) = 0 then ParseState.parseEnd
      else ParseState.parseData) =
        (if n ≤ s.length then ParseState.parseEnd else ParseState.parseData) := by
    by_cases hc : n ≤ s.length
    · rw [if_pos hc, if_pos (by omega)]
    · rw [if_neg hc, if_neg (by omega)]
  simp only [NetStringDecoder.parse, hs, NetStringDecoder.parseData, hget, Nat.cast_zero,
    zero_add, sub_zero, min_eq, hmin, hsl, hsub, hst, Int.toNat_ofNat]

/-! ## Bytes, digits and `FormatInt` -/

theorem wrapInt_of_range {x : Int} (h1 : -2 ^ 63 ≤ x) (h2 : x < 2 ^ 63) : wrapInt x = x := by
  unfold wrapInt
  omega

theorem isDigit_iff (b : UInt8) : (b ≥ 48 ∧ b ≤ 57) ↔ (48 ≤ b.toNat ∧ b.toNat ≤ 57) := by
  show ((48 : UInt8).toBitVec ≤ b.toBitVec ∧ b.toBitVec ≤ (57 : UInt8).toBitVec) ↔ _
  rw [BitVec.le_def, BitVec.le_def]
  rfl

theorem digitByte_toNat (d : Nat) : (digitByte d).toNat = 48 + d % 10 := by
  show (48 + d % 10) % 256 = _
  omega

theorem digitByte_isDigit (d : Nat) : digitByte d ≥ 48 ∧ digitByte d ≤ 57 := by
  rw [isDigit_iff, digitByte_toNat]
  omega

theorem foldDigits_append (acc : Int) (ds es : List UInt8) :
    foldDigits acc (ds ++ es) = foldDigits (foldDigits acc ds) es := by
  simp [foldDigits, List.foldl_append]

theorem formatDigits_isDigit (fuel : Nat) :
    ∀ n b, b ∈ formatDigits fuel n → b ≥ 48 ∧ b ≤ 57 := by
  induction fuel with
  | zero => intro n b hb; simp [formatDigits] at hb
  | succ k ih =>
    intro n b hb
    unfold formatDigits at hb
    split at hb
    · simp only [List.mem_singleton] at hb
      subst hb
      exact digitByte_isDigit n
    · rcases List.mem_append.mp hb with h | h
      · exact ih _ _ h
      · simp only [List.mem_singleton] at h
        subst h
        exact digitByte_isDigit n

theorem FormatInt_isDigit (n : Nat) : ∀ b ∈ FormatInt n, b ≥ 48 ∧ b ≤ 57 :=
  fun b hb => formatDigits_isDigit (n + 1) n b hb

theorem foldDigits_formatDigits (fuel : Nat) :
    ∀ n, n < fuel → n < 2 ^ 63 → foldDigits 0 (formatDigits fuel n) = (n : Int) := by
  induction fuel with
  | zero => intro n h; omega
  | succ k ih =>
    intro n hk hn
    unfold formatDigits
    split
    · simp only [foldDigits, List.foldl_cons, List.foldl_nil, digitByte_toNat]
      have e : (0 * 10 + (((48 + n % 10 : Nat) : Int) - 48) : Int) = (n : Int) := by omega
      rw [e]
      apply wrapInt_of_range <;> omega
    · rw [foldDigits_append, ih (n / 10) (by omega) (by omega)]
      simp only [foldDigits, List.foldl_cons, List.foldl_nil, digitByte_toNat]
      have e : (((n / 10 : Nat) : Int) * 10 + (((48 + n % 10 : Nat) : Int) - 48) : Int) =
          (n : Int) := by omega
      rw [e]
      apply wrapInt_of_range <;> omega

theorem foldDigits_FormatInt (n : Nat) (hn : n < 2 ^ 63) :
    foldDigits 0 (FormatInt n) = (n : Int) :=
  foldDigits_formatDigits (n + 1) n (by omega) hn

/-! ## Runs of digits, and whole frames -/

theorem FeedData_length_digits (ds rest : List UInt8) :
    ∀ d : NetStringDecoder, d.state = ParseState.parseLength →
      (∀ b ∈ ds, b ≥ 48 ∧ b ≤ 57) →
      d.FeedData (ds ++ rest) =
        NetStringDecoder.FeedData { d with length := foldDigits d.length ds } rest := by
  induction ds with
  | nil => intro d _ _; rfl
  | cons b ds ih =>
    intro d hs hd
    rw [List.cons_append, FeedData_parseLength_digit d b _ hs (hd b (List.mem_cons_self _ _))]
    refine (ih _ ?_ ?_).trans ?_
    · exact hs
    · exact fun c hc => hd c (List.mem_cons_of_mem _ hc)
    · rfl

theorem FeedData_binLength_digits (ds rest : List UInt8) :
    ∀ d : NetStringDecoder, d.state = ParseState.parseBinLength →
      (∀ b ∈ ds, b ≥ 48 ∧ b ≤ 57) →
      d.FeedData (ds ++ rest) =
        NetStringDecoder.FeedData { d with binLength := foldDigits d.binLength ds } rest := by
  induction ds with
  | nil => intro d _ _; rfl
  | cons b ds ih =>
    intro d hs hd
    rw [List.cons_append,
      FeedData_parseBinLength_digit d b _ hs (hd b (List.mem_cons_self _ _))]
    refine (ih _ ?_ ?_).trans ?_
    · exact hs
    · exact fun c hc => hd c (List.mem_cons_of_mem _ hc)
    · rfl

theorem Fresh_NewDecoder : Fresh NewDecoder := by
  simp [Fresh, NewDecoder]

theorem Fresh_SetEndSymbol {d : NetStringDecoder} (h : Fresh d) (e : UInt8) :
    Fresh (d.SetEndSymbol e) := h

theorem colon_not_digit : ¬ ((58 : UInt8) ≥ 48 ∧ (58 : UInt8) ≤ 57) := by decide

theorem comma_not_digit : ¬ ((44 : UInt8) ≥ 48 ∧ (44 : UInt8) ≤ 57) := by decide

/-- A plain frame `<len>:<payload><end>` read by a decoder that is between frames:
the payload is delivered on `DataOutput` and the decoder is between frames again. -/
theorem FeedData_plain_frame (d : NetStringDecoder) (p rest : List UInt8) (hd : Fresh d)
    (hp : p.length < 2 ^ 63) :
    d.FeedData (FormatInt p.length ++ 58 :: (p ++ d.endSymbol :: rest)) =
      NetStringDecoder.FeedData { d with DataOutput := d.DataOutput ++ [p] } rest := by
  obtain ⟨hs, hl, hb, hpd, hsep, hls⟩ := hd
  rw [FeedData_length_digits _ _ d hs (FormatInt_isDigit _), hl, foldDigits_FormatInt _ hp]
  refine (FeedData_parseLength_other _ _ _ ?_ colon_not_digit).trans ?_
  · exact hs
  refine (FeedData_parseSeparator_data _ _ _ ?_ ?_).trans ?_
  · rfl
  · exact hsep.symm
  simp only [hb, add_zero]
  rw [wrapInt_of_range (by omega) (by omega)]
  refine (FeedData_parseData _ _ p.length ?_ ?_ ?_).trans ?_
  · rfl
  · simp
  · rfl
  simp only [List.length_append, List.length_cons, Nat.le_add_right, Nat.min_eq_left,
    List.take_left', List.drop_left', if_true, Nat.sub_self, hpd, List.nil_append]
  refine (FeedData_parseEnd_match _ _ _ ?_ ?_).trans ?_
  · rfl
  · rfl
  simp only [NetStringDecoder.sendData, hb, if_true, NetStringDecoder.reset]
  congr 1
  cases d
  simp_all

/-! ## The encoder -/

theorem formatDigits_eq_decimal (fuel : Nat) :
    ∀ n, n < fuel → formatDigits fuel n = decimal n := by
  induction fuel with
  | zero => intro n h; omega
  | succ k ih =>
    intro n hk
    unfold formatDigits
    split
    · rename_i hlt
      unfold decimal
      split
      · rename_i h0
        subst h0
        rfl
      · rename_i h0
        rw [Nat.digits_of_lt 10 n h0 hlt]
        simp [digitByte, Nat.mod_eq_of_lt hlt]
    · rename_i hge
      rw [ih (n / 10) (by omega)]
      have hn0 : n ≠ 0 := by omega
      have hd0 : n / 10 ≠ 0 := by omega
      unfold decimal
      have e : Nat.digits 10 n = (n % 10) :: Nat.digits 10 (n / 10) :=
        Nat.digits_def' (by omega) (by omega)
      rw [if_neg hn0, if_neg hd0, e]
      simp [digitByte]

theorem FormatInt_eq_decimal (n : Nat) : FormatInt n = decimal n :=
  formatDigits_eq_decimal (n + 1) n (by omega)

theorem decimalValue_snoc (ds : List UInt8) (b : UInt8) :
    decimalValue (ds ++ [b]) = decimalValue ds * 10 + (b.toNat - 48) := by
  simp [decimalValue, List.foldl_append]

theorem decimalValue_formatDigits (fuel : Nat) :
    ∀ n, n < fuel → decimalValue (formatDigits fuel n) = n := by
  induction fuel with
  | zero => intro n h; omega
  | succ k ih =>
    intro n hk
    unfold formatDigits
    split
    · simp only [decimalValue, List.foldl_cons, List.foldl_nil, digitByte_toNat]
      omega
    · rw [decimalValue_snoc, ih (n / 10) (by omega), digitByte_toNat]
      omega

theorem formatDigits_ne_nil (fuel : Nat) (n : Nat) (h : n < fuel) :
    formatDigits fuel n ≠ [] := by
  cases fuel with
  | zero => omega
  | succ k =>
    unfold formatDigits
    split <;> simp

theorem formatDigits_head (fuel : Nat) :
    ∀ n, n < fuel → n ≠ 0 → (formatDigits fuel n).head? ≠ some 48 := by
  induction fuel with
  | zero => intro n h; omega
  | succ k ih =>
    intro n hk h0
    unfold formatDigits
    split
    · rename_i hlt
      simp only [List.head?_cons, ne_eq, Option.some.injEq]
      intro h
      have h2 := congrArg UInt8.toNat h
      rw [digitByte_toNat] at h2
      have h3 : (48 : UInt8).toNat = 48 := rfl
      omega
    · rename_i hge
      have hih := ih (n / 10) (by omega) (by omega)
      cases hf : formatDigits k (n / 10) with
      | nil => exact absurd hf (formatDigits_ne_nil k (n / 10) (by omega))
      | cons x xs =>
        rw [hf] at hih
        simpa using hih

/-- A mixed frame `<textlen>,<binlen>:<text><binary><end>` with a non-empty binary part, read
by a decoder that is between frames: one `TextBinaryMsg` is delivered. -/
theorem FeedData_mixed_frame (d : NetStringDecoder) (text binary rest : List UInt8)
    (hd : Fresh d) (hbin : 1 ≤ binary.length)
    (hlen : text.length + binary.length < 2 ^ 63) :
    d.FeedData (FormatInt text.length ++ 44 :: (FormatInt binary.length ++
        58 :: ((text ++ binary) ++ d.endSymbol :: rest))) =
      NetStringDecoder.FeedData
        { d with
          TextBinDataOutput := d.TextBinDataOutput ++
            [{ Data := text ++ binary, TextLength := (text.length : Int) }] } rest := by
  obtain ⟨hs, hl, hb, hpd, hsep, hls⟩ := hd
  rw [FeedData_length_digits _ _ d hs (FormatInt_isDigit _), hl,
    foldDigits_FormatInt _ (by omega)]
  refine (FeedData_parseLength_other _ _ _ ?_ comma_not_digit).trans ?_
  · exact hs
  refine (FeedData_parseSeparator_bin _ _ _ ?_ ?_ ?_).trans ?_
  · rfl
  · show (44 : UInt8) ≠ d.separatorSymbol
    rw [hsep]
    decide
  · exact hls.symm
  refine (FeedData_binLength_digits _ _ _ ?_ (FormatInt_isDigit _)).trans ?_
  · rfl
  simp only [hb]
  rw [foldDigits_FormatInt _ (by omega)]
  refine (FeedData_parseBinLength_other _ _ _ ?_ colon_not_digit).trans ?_
  · rfl
  refine (FeedData_parseSeparator_data _ _ _ ?_ ?_).trans ?_
  · rfl
  · exact hsep.symm
  simp only
  rw [wrapInt_of_range (by omega) (by omega)]
  refine (FeedData_parseData _ _ (text.length + binary.length) ?_ ?_ ?_).trans ?_
  · rfl
  · simp
  · simp
  have hl2 : (text ++ binary).length = text.length + binary.length := List.length_append _ _
  simp only [List.length_append, List.length_cons, Nat.le_add_right, Nat.min_eq_left,
    List.take_left' hl2, List.drop_left' hl2, if_true, Nat.sub_self, hpd, List.nil_append]
  refine (FeedData_parseEnd_match _ _ _ ?_ ?_).trans ?_
  · rfl
  · rfl
  have hne : ((binary.length : Nat) : Int) ≠ 0 := by omega
  have hw : wrapInt (((text.length + binary.length : Nat) : Int) - (binary.length : Int)) =
      (text.length : Int) := by
    have e : (((text.length + binary.length : Nat) : Int) - (binary.length : Int)) =
        (text.length : Int) := by omega
    rw [e]
    apply wrapInt_of_range <;> omega
  simp only [NetStringDecoder.sendData, hne, if_false, NetStringDecoder.reset,
    List.length_append, hw]
  congr 1
  cases d
  simp_all

/-- A plain frame whose terminator position holds a byte other than `endSymbol`: the frame is
dropped and that byte is read again by the decoder between frames. -/
theorem FeedData_plain_frame_dropped (d : NetStringDecoder) (p rest : List UInt8) (c : UInt8)
    (hd : Fresh d) (hc : c ≠ d.endSymbol) (hp : p.length < 2 ^ 63) :
    d.FeedData (FormatInt p.length ++ 58 :: (p ++ c :: rest)) = d.FeedData (c :: rest) := by
  obtain ⟨hs, hl, hb, hpd, hsep, hls⟩ := hd
  rw [FeedData_length_digits _ _ d hs (FormatInt_isDigit _), hl, foldDigits_FormatInt _ hp]
  refine (FeedData_parseLength_other _ _ _ ?_ colon_not_digit).trans ?_
  · exact hs
  refine (FeedData_parseSeparator_data _ _ _ ?_ ?_).trans ?_
  · rfl
  · exact hsep.symm
  simp only [hb, add_zero]
  rw [wrapInt_of_range (by omega) (by omega)]
  refine (FeedData_parseData _ _ p.length ?_ ?_ ?_).trans ?_
  · rfl
  · simp
  · rfl
  simp only [List.length_append, List.length_cons, Nat.le_add_right, Nat.min_eq_left,
    List.take_left', List.drop_left', if_true, Nat.sub_self, hpd, List.nil_append]
  refine (FeedData_parseEnd_other _ _ _ ?_ ?_).trans ?_
  · rfl
  · exact hc
  simp only [NetStringDecoder.reset]
  congr 1
  cases d
  simp_all

/-- One byte fed to a decoder that is between frames delivers nothing. -/
theorem FeedData_single_no_output (d : NetStringDecoder) (c : UInt8) (hd : Fresh d) :
    ∃ d', d.FeedData [c] = Outcome.done d' ∧ d'.DataOutput = d.DataOutput ∧
      d'.TextBinDataOutput = d.TextBinDataOutput := by
  obtain ⟨hs, hl, hb, hpd, hsep, hls⟩ := hd
  by_cases hdig : c ≥ 48 ∧ c ≤ 57
  · rw [FeedData_parseLength_digit d c [] hs hdig, FeedData_nil]
    exact ⟨_, rfl, rfl, rfl⟩
  · rw [FeedData_parseLength_other d c [] hs hdig]
    by_cases h1 : c = d.separatorSymbol
    · refine ⟨_, (FeedData_parseSeparator_data _ c [] ?_ ?_).trans (FeedData_nil _), rfl, rfl⟩
      · rfl
      · exact h1
    · by_cases h2 : c = d.separatorLengthSymbol
      · refine ⟨_, (FeedData_parseSeparator_bin _ c [] ?_ ?_ ?_).trans (FeedData_nil _),
          rfl, rfl⟩
        · rfl
        · exact h1
        · exact h2
      · refine ⟨_, (FeedData_parseSeparator_other _ c [] ?_ ?_ ?_).trans (FeedData_nil _),
          rfl, rfl⟩
        · rfl
        · exact h1
        · exact h2

/-- A malformed header read by a decoder between frames leaves it between frames, with
nothing delivered. -/
theorem FeedData_malformedHeader (d : NetStringDecoder) (ds : List UInt8)
    (bin : Option (List UInt8)) (x : UInt8) (rest : List UInt8) (hd : Fresh d)
    (hds : ∀ b ∈ ds, b ≥ 48 ∧ b ≤ 57) (hbin : ∀ b ∈ bin.getD [], b ≥ 48 ∧ b ≤ 57)
    (hx : ¬ (x ≥ 48 ∧ x ≤ 57)) (hx1 : x ≠ 58) (hx2 : x ≠ 44) :
    d.FeedData (malformedHeader ds bin x ++ rest) = d.FeedData rest := by
  obtain ⟨hs, hl, hb, hpd, hsep, hls⟩ := hd
  have hreset : ∀ (l bl : Int) (st : ParseState),
      ({ d with length := l, binLength := bl, state := st } : NetStringDecoder).reset = d := by
    intro l bl st
    cases d
    simp_all [NetStringDecoder.reset]
  cases bin with
  | none =>
    simp only [malformedHeader, List.append_assoc, List.singleton_append]
    rw [FeedData_length_digits _ _ d hs hds]
    refine (FeedData_parseLength_other _ _ _ ?_ hx).trans ?_
    · exact hs
    refine (FeedData_parseSeparator_other _ _ _ ?_ ?_ ?_).trans ?_
    · rfl
    · show x ≠ d.separatorSymbol
      rw [hsep]; exact hx1
    · show x ≠ d.separatorLengthSymbol
      rw [hls]; exact hx2
    rw [hreset]
  | some bs =>
    simp only [malformedHeader, List.append_assoc, List.singleton_append, List.cons_append,
      List.nil_append]
    rw [FeedData_length_digits _ _ d hs hds]
    refine (FeedData_parseLength_other _ _ _ ?_ comma_not_digit).trans ?_
    · exact hs
    refine (FeedData_parseSeparator_bin _ _ _ ?_ ?_ ?_).trans ?_
    · rfl
    · show (44 : UInt8) ≠ d.separatorSymbol
      rw [hsep]
      decide
    · exact hls.symm
    refine (FeedData_binLength_digits _ _ _ ?_ hbin).trans ?_
    · rfl
    refine (FeedData_parseBinLength_other _ _ _ ?_ hx).trans ?_
    · rfl
    refine (FeedData_parseSeparator_other _ _ _ ?_ ?_ ?_).trans ?_
    · rfl
    · show x ≠ d.separatorSymbol
      rw [hsep]; exact hx1
    · show x ≠ d.separatorLengthSymbol
      rw [hls]; exact hx2
    rw [hreset]

/-- A whole frame with both length fields, `<digits>,<digits>:<payload><end>`, read by a
decoder between frames, where the digit runs fold to `t` and `b` and the payload has
`t + b` bytes: a plain message is delivered when `b = 0` and a mixed one otherwise. -/
theorem FeedData_two_field_frame (d : NetStringDecoder) (ds1 ds2 payload rest : List UInt8)
    (t b : Nat) (hd : Fresh d) (h1 : ∀ x ∈ ds1, x ≥ 48 ∧ x ≤ 57)
    (h2 : ∀ x ∈ ds2, x ≥ 48 ∧ x ≤ 57) (ht : foldDigits 0 ds1 = (t : Int))
    (hb : foldDigits 0 ds2 = (b : Int)) (hlen : payload.length = t + b)
    (hlt : t + b < 2 ^ 63) :
    d.FeedData (ds1 ++ 44 :: (ds2 ++ 58 :: (payload ++ d.endSymbol :: rest))) =
      NetStringDecoder.FeedData
        { d with
          DataOutput := if b = 0 then d.DataOutput ++ [payload] else d.DataOutput
          TextBinDataOutput :=
            if b = 0 then d.TextBinDataOutput
            else d.TextBinDataOutput ++ [{ Data := payload, TextLength := (t : Int) }] }
        rest := by
  obtain ⟨hs, hl, hbl, hpd, hsep, hls⟩ := hd
  rw [FeedData_length_digits _ _ d hs h1, hl, ht]
  refine (FeedData_parseLength_other _ _ _ ?_ comma_not_digit).trans ?_
  · exact hs
  refine (FeedData_parseSeparator_bin _ _ _ ?_ ?_ ?_).trans ?_
  · rfl
  · show (44 : UInt8) ≠ d.separatorSymbol
    rw [hsep]
    decide
  · exact hls.symm
  refine (FeedData_binLength_digits _ _ _ ?_ h2).trans ?_
  · rfl
  simp only [hbl]
  rw [hb]
  refine (FeedData_parseBinLength_other _ _ _ ?_ colon_not_digit).trans ?_
  · rfl
  refine (FeedData_parseSeparator_data _ _ _ ?_ ?_).trans ?_
  · rfl
  · exact hsep.symm
  simp only
  rw [wrapInt_of_range (by omega) (by omega)]
  refine (FeedData_parseData _ _ (t + b) ?_ ?_ ?_).trans ?_
  · rfl
  · simp
  · simp
  simp only [List.length_append, List.length_cons, hlen, Nat.le_add_right, Nat.min_eq_left,
    List.take_left' hlen, List.drop_left' hlen, if_true, Nat.sub_self, hpd, List.nil_append]
  refine (FeedData_parseEnd_match _ _ _ ?_ ?_).trans ?_
  · rfl
  · rfl
  by_cases hb0 : b = 0
  · subst hb0
    simp only [NetStringDecoder.sendData, NetStringDecoder.reset, Nat.cast_zero, if_true]
    congr 1
    cases d
    simp_all
  · have hne : ((b : Nat) : Int) ≠ 0 := by omega
    have hw : wrapInt (((t + b : Nat) : Int) - (b : Int)) = (t : Int) := by
      have e : (((t + b : Nat) : Int) - (b : Int)) = (t : Int) := by omega
      rw [e]
      apply wrapInt_of_range <;> omega
    simp only [NetStringDecoder.sendData, hne, if_false, NetStringDecoder.reset, hlen, hw, hb0]
    congr 1
    cases d
    simp_all

theorem foldDigits_zeros (k : Nat) : foldDigits 0 (List.replicate k 48) = 0 := by
  induction k with
  | zero => rfl
  | succ k ih =>
    have e : wrapInt (0 * 10 + (((48 : UInt8).toNat : Int) - 48)) = 0 := by decide
    simp only [foldDigits, List.replicate_succ, List.foldl_cons] at ih ⊢
    rw [e]
    exact ih

theorem zeros_isDigit (k : Nat) : ∀ x ∈ List.replicate k (48 : UInt8), x ≥ 48 ∧ x ≤ 57 := by
  intro x hx
  rw [List.eq_of_mem_replicate hx]
  decide

/-- The first byte of an encoded frame is a digit, so it is not the terminator `','`. -/
theorem Encode_head (q : List UInt8) :
    ∃ c rest, Encode q = c :: rest ∧ (c ≥ 48 ∧ c ≤ 57) := by
  have hne := formatDigits_ne_nil (q.length + 1) q.length (by omega)
  have hdig := FormatInt_isDigit q.length
  unfold FormatInt at hdig
  cases hf : formatDigits (q.length + 1) q.length with
  | nil => exact absurd hf hne
  | cons c cs =>
    rw [hf] at hdig
    refine ⟨c, cs ++ [58] ++ q ++ [44], ?_, hdig c (List.mem_cons_self _ _)⟩
    simp [Encode, FormatInt, hf]

/-- A frame header and the first `len s` bytes of a longer payload leave the decoder in state
`parseData` with the bytes read so far in the buffer and the bytes still due in `length`. -/
theorem FeedData_partial_payload (d : NetStringDecoder) (n : Nat) (s : List UInt8)
    (hd : Fresh d) (hn : n < 2 ^ 63) (hs : s.length < n) :
    d.FeedData (FormatInt n ++ 58 :: s) =
      Outcome.done
        { d with
          parsedData := s
          length := ((n - s.length : Nat) : Int)
          state := ParseState.parseData } := by
  obtain ⟨hst, hl, hbl, hpd, hsep, hls⟩ := hd
  rw [FeedData_length_digits _ _ d hst (FormatInt_isDigit _), hl, foldDigits_FormatInt _ hn]
  refine (FeedData_parseLength_other _ _ _ ?_ colon_not_digit).trans ?_
  · exact hst
  refine (FeedData_parseSeparator_data _ _ _ ?_ ?_).trans ?_
  · rfl
  · exact hsep.symm
  simp only [hbl, add_zero]
  rw [wrapInt_of_range (by omega) (by omega)]
  cases s with
  | nil =>
    rw [FeedData_nil]
    simp [hpd]
  | cons x xs =>
    refine (FeedData_parseData _ _ n ?_ ?_ ?_).trans ?_
    · rfl
    · simp
    · rfl
    have hmin : min n (x :: xs).length = (x :: xs).length := by omega
    have hle : ¬ n ≤ (x :: xs).length := by omega
    rw [hmin, List.take_length, List.drop_length, FeedData_nil, if_neg hle]
    simp [hpd]

/-! ## Feeding a stream in pieces -/

theorem andThen_FeedData_nil (o : Outcome) :
    o.andThen (fun d => d.FeedData []) = o := by
  cases o <;> simp [Outcome.andThen, FeedData_nil]

theorem FeedData_append_aux (k : Nat) :
    ∀ (d : NetStringDecoder) (a b : List UInt8), stepsLeft d 0 a ≤ k →
      d.FeedData (a ++ b) = (d.FeedData a).andThen (fun d' => d'.FeedData b) := by
  induction k with
  | zero =>
    intro d a b hk
    have r := stateRank_le d.state
    have ha : a = [] := by
      apply List.eq_nil_of_length_eq_zero
      unfold stepsLeft at hk
      omega
    subst ha
    simp [FeedData_nil, Outcome.andThen]
  | succ k ih =>
    intro d a b hk
    by_cases hb : b = []
    · subst hb
      rw [List.append_nil, andThen_FeedData_nil]
    cases a with
    | nil => simp [FeedData_nil, Outcome.andThen]
    | cons x a =>
      have r := stateRank_le d.state
      unfold stepsLeft at hk
      simp only [List.length_cons, Nat.sub_zero] at hk
      rw [List.cons_append]
      cases hs : d.state with
      | parseLength =>
        rw [hs] at hk
        by_cases hx : x ≥ 48 ∧ x ≤ 57
        · rw [FeedData_parseLength_digit d x _ hs hx, FeedData_parseLength_digit d x _ hs hx]
          apply ih
          simp only [stepsLeft, hs, stateRank] at hk ⊢
          omega
        · rw [FeedData_parseLength_other d x _ hs hx, FeedData_parseLength_other d x _ hs hx,
            ← List.cons_append]
          apply ih
          simp only [stepsLeft, stateRank, List.length_cons] at hk ⊢
          omega
      | parseBinLength =>
        rw [hs] at hk
        by_cases hx : x ≥ 48 ∧ x ≤ 57
        · rw [FeedData_parseBinLength_digit d x _ hs hx,
            FeedData_parseBinLength_digit d x _ hs hx]
          apply ih
          simp only [stepsLeft, hs, stateRank] at hk ⊢
          omega
        · rw [FeedData_parseBinLength_other d x _ hs hx,
            FeedData_parseBinLength_other d x _ hs hx, ← List.cons_append]
          apply ih
          simp only [stepsLeft, stateRank, List.length_cons] at hk ⊢
          omega
      | parseSeparator =>
        rw [hs] at hk
        by_cases hx : x = d.separatorSymbol
        · rw [FeedData_parseSeparator_data d x _ hs hx, FeedData_parseSeparator_data d x _ hs hx]
          apply ih
          simp only [stepsLeft, stateRank] at hk ⊢
          omega
        · by_cases hx2 : x = d.separatorLengthSymbol
          · rw [FeedData_parseSeparator_bin d x _ hs hx hx2,
              FeedData_parseSeparator_bin d x _ hs hx hx2]
            apply ih
            simp only [stepsLeft, stateRank] at hk ⊢
            omega
          · rw [FeedData_parseSeparator_other d x _ hs hx hx2,
              FeedData_parseSeparator_other d x _ hs hx hx2]
            apply ih
            simp only [stepsLeft, stateRank, NetStringDecoder.reset] at hk ⊢
            omega
      | parseEnd =>
        rw [hs] at hk
        by_cases hx : x = d.endSymbol
        · rw [FeedData_parseEnd_match d x _ hs hx, FeedData_parseEnd_match d x _ hs hx]
          apply ih
          simp only [stepsLeft, stateRank, NetStringDecoder.reset] at hk ⊢
          omega
        · rw [FeedData_parseEnd_other d x _ hs hx, FeedData_parseEnd_other d x _ hs hx,
            ← List.cons_append]
          apply ih
          simp only [stepsLeft, stateRank, NetStringDecoder.reset, List.length_cons] at hk ⊢
          omega
      | parseData =>
        rw [hs] at hk
        rw [← List.cons_append]
        generalize hA : x :: a = A at *
        have hAne : A ≠ [] := by rw [← hA]; simp
        have hAlen : A.length = a.length + 1 := by rw [← hA]; rfl
        by_cases hneg : d.length < 0
        · rw [FeedData_parseData_neg d _ hs (by simp [hAne]) hneg,
            FeedData_parseData_neg d _ hs hAne hneg]
          rfl
        · obtain ⟨n, hn⟩ : ∃ n : Nat, d.length = (n : Int) :=
            ⟨d.length.toNat, by omega⟩
          rw [FeedData_parseData d _ n hs (by simp [hAne]) hn,
            FeedData_parseData d _ n hs hAne hn]
          by_cases hle : n ≤ A.length
          · have m1 : min n (A ++ b).length = n := by
              rw [List.length_append]; omega
            have m2 : min n A.length = n := by omega
            have c1 : n ≤ (A ++ b).length := by rw [List.length_append]; omega
            rw [m1, m2, if_pos c1, if_pos hle, List.take_append_of_le_length hle,
              List.drop_append_of_le_length hle]
            apply ih
            simp only [stepsLeft, stateRank, List.length_drop] at hk ⊢
            omega
          · have hgt : A.length < n := Nat.lt_of_not_le hle
            have hblen : 0 < b.length := List.length_pos.mpr hb
            have m2 : min n A.length = A.length := by omega
            rw [m2, if_neg hle, List.take_length, List.drop_length, FeedData_nil]
            simp only [Outcome.andThen]
            refine Eq.trans ?_ (FeedData_parseData _ b (n - A.length) ?_ hb ?_).symm
            · have m1 : min n (A ++ b).length = A.length + min (n - A.length) b.length := by
                rw [List.length_append]; omega
              have t1 : List.take (A.length + min (n - A.length) b.length) (A ++ b) =
                  A ++ List.take (min (n - A.length) b.length) b := by
                rw [List.take_append]
              have l1 : n - (A.length + min (n - A.length) b.length) =
                  n - A.length - min (n - A.length) b.length := by omega
              have c1 : (n ≤ (A ++ b).length) = (n - A.length ≤ b.length) := by
                rw [List.length_append]
                apply propext
                omega
              rw [m1, t1, List.drop_append, l1]
              simp only [c1, List.append_assoc]
            · rfl
            · rfl

/-- The call `FeedData` on `a ++ b` is `FeedData` on `a` followed by `FeedData` on `b`. -/
theorem FeedData_append (d : NetStringDecoder) (a b : List UInt8) :
    d.FeedData (a ++ b) = (d.FeedData a).andThen (fun d' => d'.FeedData b) :=
  FeedData_append_aux _ d a b (Nat.le_refl _)

theorem feedAll_panic (chunks : List (List UInt8)) :
    feedAll Outcome.panic chunks = Outcome.panic := by
  cases chunks <;> rfl

theorem feedAll_outOfFuel (chunks : List (List UInt8)) :
    feedAll Outcome.outOfFuel chunks = Outcome.outOfFuel := by
  cases chunks <;> rfl

/-- Feeding chunk after chunk is feeding their concatenation in one call. -/
theorem feedAll_eq_FeedData_flatten (chunks : List (List UInt8)) :
    ∀ o : Outcome, feedAll o chunks = o.andThen (fun d => d.FeedData chunks.flatten) := by
  induction chunks with
  | nil =>
    intro o
    cases o <;> simp [feedAll, Outcome.andThen, FeedData_nil]
  | cons c cs ih =>
    intro o
    cases o with
    | done d =>
      simp only [feedAll, Outcome.andThen, List.flatten_cons]
      rw [ih, FeedData_append]
    | panic => rfl
    | outOfFuel => rfl

theorem FeedData_Encode (d : NetStringDecoder) (p rest : List UInt8) (hd : Fresh d)
    (he : d.endSymbol = 44) (hp : p.length < 2 ^ 63) :
    d.FeedData (Encode p ++ rest) =
      NetStringDecoder.FeedData { d with DataOutput := d.DataOutput ++ [p] } rest := by
  have e : Encode p ++ rest = FormatInt p.length ++ 58 :: (p ++ d.endSymbol :: rest) := by
    simp [Encode, he]
  rw [e]
  exact FeedData_plain_frame d p rest hd hp

theorem FeedData_Encode_list (ps : List (List UInt8)) (rest : List UInt8) :
    ∀ d : NetStringDecoder, Fresh d → d.endSymbol = 44 → (∀ p ∈ ps, p.length < 2 ^ 63) →
      d.FeedData ((ps.map Encode).flatten ++ rest) =
        NetStringDecoder.FeedData { d with DataOutput := d.DataOutput ++ ps } rest := by
  induction ps with
  | nil =>
    intro d _ _ _
    simp
  | cons p ps ih =>
    intro d hd he hps
    rw [List.map_cons, List.flatten_cons, List.append_assoc,
      FeedData_Encode d p _ hd he (hps p (List.mem_cons_self _ _))]
    refine (ih _ ?_ ?_ ?_).trans ?_
    · exact hd
    · exact he
    · exact fun q hq => hps q (List.mem_cons_of_mem _ hq)
    · simp

/-! ## Every parse step, case by case -/

/-- The ten ways a parse step can return. -/
theorem parse_step_cases {d d' : NetStringDecoder} {i i' : Nat} {data : List UInt8}
    (hp : d.parse i data = some (d', i')) :
    ∃ symbol, data[i]? = some symbol ∧
      ((d.state = ParseState.parseLength ∧ (symbol ≥ 48 ∧ symbol ≤ 57) ∧
          d' = { d with length := wrapInt (d.length * 10 + ((symbol.toNat : Int) - 48)) } ∧
          i' = i + 1) ∨
        (d.state = ParseState.parseLength ∧ ¬ (symbol ≥ 48 ∧ symbol ≤ 57) ∧
          d' = { d with state := ParseState.parseSeparator } ∧ i' = i) ∨
        (d.state = ParseState.parseBinLength ∧ (symbol ≥ 48 ∧ symbol ≤ 57) ∧
          d' = { d with
                 binLength := wrapInt (d.binLength * 10 + ((symbol.toNat : Int) - 48)) } ∧
          i' = i + 1) ∨
        (d.state = ParseState.parseBinLength ∧ ¬ (symbol ≥ 48 ∧ symbol ≤ 57) ∧
          d' = { d with state := ParseState.parseSeparator } ∧ i' = i) ∨
        (d.state = ParseState.parseSeparator ∧ symbol = d.separatorSymbol ∧
          d' = { d with
                 length := wrapInt (d.length + d.binLength)
                 state := ParseState.parseData } ∧
          i' = i + 1) ∨
        (d.state = ParseState.parseSeparator ∧ symbol ≠ d.separatorSymbol ∧
          symbol = d.separatorLengthSymbol ∧
          d' = { d with state := ParseState.parseBinLength } ∧ i' = i + 1) ∨
        (d.state = ParseState.parseSeparator ∧ symbol ≠ d.separatorSymbol ∧
          symbol ≠ d.separatorLengthSymbol ∧ d' = d.reset ∧ i' = i + 1) ∨
        (d.state = ParseState.parseData ∧
          ∃ n : Nat, (n : Int) ≤ d.length ∧ i + n ≤ data.length ∧
            (n : Int) = min d.length ((data.length : Int) - (i : Int)) ∧
            d' = { d with
                   parsedData := d.parsedData ++ (data.drop i).take n
                   length := d.length - (n : Int)
                   state := if d.length - (n : Int) = 0 then ParseState.parseEnd
                     else ParseState.parseData } ∧
            i' = i + n) ∨
        (d.state = ParseState.parseEnd ∧ symbol = d.endSymbol ∧
          d' = (d.sendData d.parsedData).reset ∧ i' = i + 1) ∨
        (d.state = ParseState.parseEnd ∧ symbol ≠ d.endSymbol ∧ d' = d.reset ∧ i' = i)) := by
  cases hget : data[i]? with
  | none =>
    unfold NetStringDecoder.parse at hp
    split at hp <;>
      simp [NetStringDecoder.parseLength, NetStringDecoder.parseBinLength,
        NetStringDecoder.parseSeparator, NetStringDecoder.parseData,
        NetStringDecoder.parseEnd, hget] at hp
  | some symbol =>
    refine ⟨symbol, rfl, ?_⟩
    unfold NetStringDecoder.parse at hp
    split at hp
    · rename_i hs
      unfold NetStringDecoder.parseLength at hp
      rw [hget] at hp
      simp only at hp
      split at hp
      · rename_i hd
        simp only [Option.some.injEq, Prod.mk.injEq] at hp
        exact Or.inl ⟨hs, hd, hp.1.symm, hp.2.symm⟩
      · rename_i hd
        simp only [Option.some.injEq, Prod.mk.injEq] at hp
        exact Or.inr (Or.inl ⟨hs, hd, hp.1.symm, hp.2.symm⟩)
    · rename_i hs
      unfold NetStringDecoder.parseBinLength at hp
      rw [hget] at hp
      simp only at hp
      split at hp
      · rename_i hd
        simp only [Option.some.injEq, Prod.mk.injEq] at hp
        exact Or.inr (Or.inr (Or.inl ⟨hs, hd, hp.1.symm, hp.2.symm⟩))
      · rename_i hd
        simp only [Option.some.injEq, Prod.mk.injEq] at hp
        exact Or.inr (Or.inr (Or.inr (Or.inl ⟨hs, hd, hp.1.symm, hp.2.symm⟩)))
    · rename_i hs
      unfold NetStringDecoder.parseSeparator at hp
      rw [hget] at hp
      simp only at hp
      split at hp
      · rename_i h1
        simp only [Option.some.injEq, Prod.mk.injEq] at hp
        exact Or.inr (Or.inr (Or.inr (Or.inr (Or.inl ⟨hs, h1, hp.1.symm, hp.2.symm⟩))))
      · rename_i h1
        split at hp
        · rename_i h2
          simp only [Option.some.injEq, Prod.mk.injEq] at hp
          exact Or.inr (Or.inr (Or.inr (Or.inr (Or.inr (Or.inl
            ⟨hs, h1, h2, hp.1.symm, hp.2.symm⟩)))))
        · rename_i h2
          simp only [Option.some.injEq, Prod.mk.injEq] at hp
          exact Or.inr (Or.inr (Or.inr (Or.inr (Or.inr (Or.inr (Or.inl
            ⟨hs, h1, h2, hp.1.symm, hp.2.symm⟩))))))
    · rename_i hs
      unfold NetStringDecoder.parseData at hp
      rw [hget] at hp
      simp only [min_eq] at hp
      split at hp
      · simp at hp
      · rename_i chunk hsl
        obtain ⟨h0, h1, h2, hch⟩ := goSlice_eq_some hsl
        simp only [Option.some.injEq, Prod.mk.injEq] at hp
        refine Or.inr (Or.inr (Or.inr (Or.inr (Or.inr (Or.inr (Or.inr (Or.inl
          ⟨hs, (min d.length ((data.length : Int) - (i : Int))).toNat, ?_, ?_, ?_, ?_, ?_⟩)))))))
        · omega
        · omega
        · omega
        · rw [← hp.1, hch]
          have e1 : ((i : Int) + min d.length ((data.length : Int) - (i : Int)) - (i : Int)) =
              min d.length ((data.length : Int) - (i : Int)) := by omega
          have e2 : ((min d.length ((data.length : Int) - (i : Int))).toNat : Int) =
              min d.length ((data.length : Int) - (i : Int)) := by omega
          rw [e1, e2, hs]
          simp
        · rw [← hp.2]
          omega
    · rename_i hs
      unfold NetStringDecoder.parseEnd at hp
      rw [hget] at hp
      simp only at hp
      split at hp
      · rename_i h1
        simp only [Option.some.injEq, Prod.mk.injEq] at hp
        exact Or.inr (Or.inr (Or.inr (Or.inr (Or.inr (Or.inr (Or.inr (Or.inr (Or.inl
          ⟨hs, h1, hp.1.symm, hp.2.symm⟩))))))))
      · rename_i h1
        simp only [Option.some.injEq, Prod.mk.injEq] at hp
        exact Or.inr (Or.inr (Or.inr (Or.inr (Or.inr (Or.inr (Or.inr (Or.inr (Or.inr
          ⟨hs, h1, hp.1.symm, hp.2.symm⟩))))))))

/-! ## Reachable states and what holds in all of them -/

theorem CleanHeader_NewDecoder : CleanHeader NewDecoder := by
  simp [CleanHeader, NewDecoder]

theorem CleanHeader_step {d d' : NetStringDecoder} {i i' : Nat} {data : List UInt8}
    (h : CleanHeader d) (hp : d.parse i data = some (d', i')) : CleanHeader d' := by
  obtain ⟨h1, h2⟩ := h
  obtain ⟨symbol, -, hc⟩ := parse_step_cases hp
  rcases hc with ⟨hs, -, rfl, -⟩ | ⟨hs, -, rfl, -⟩ | ⟨hs, -, rfl, -⟩ | ⟨hs, -, rfl, -⟩ |
    ⟨hs, -, rfl, -⟩ | ⟨hs, -, -, rfl, -⟩ | ⟨hs, -, -, rfl, -⟩ | ⟨hs, n, -, -, -, rfl, -⟩ |
    ⟨hs, -, rfl, -⟩ | ⟨hs, -, rfl, -⟩
  · exact ⟨fun _ => ⟨(h1 hs).1, (h1 hs).2⟩, fun _ => (h1 hs).2⟩
  · exact ⟨fun hc => by simp at hc, fun _ => (h1 hs).2⟩
  · exact ⟨fun hc => by simp [hs] at hc, fun _ => h2 (Or.inl hs)⟩
  · exact ⟨fun hc => by simp at hc, fun _ => h2 (Or.inl hs)⟩
  · exact ⟨fun hc => by simp at hc, fun hc => by simp at hc⟩
  · exact ⟨fun hc => by simp at hc, fun _ => h2 (Or.inr hs)⟩
  · exact ⟨fun _ => ⟨rfl, rfl⟩, fun _ => rfl⟩
  · constructor
    · intro hc
      simp only at hc
      split at hc <;> simp at hc
    · intro hc
      simp only at hc
      split at hc <;> simp at hc
  · exact ⟨fun _ => ⟨rfl, rfl⟩, fun _ => rfl⟩
  · exact ⟨fun _ => ⟨rfl, rfl⟩, fun _ => rfl⟩

theorem Reachable_CleanHeader {ok : NetStringDecoder → Prop} {d : NetStringDecoder}
    (h : Reachable ok d) : CleanHeader d := by
  induction h with
  | init => exact CleanHeader_NewDecoder
  | setEndSymbol symbol _ ih => exact ih
  | setDebugMode mode _ ih => exact ih
  | step _ hp _ ih => exact CleanHeader_step ih hp

theorem Reachable_feedLoop (fuel : Nat) :
    ∀ (d d' : NetStringDecoder) (i : Nat) (data : List UInt8),
      Reachable (fun _ => True) d → NetStringDecoder.feedLoop fuel d i data = Outcome.done d' →
      Reachable (fun _ => True) d' := by
  induction fuel with
  | zero =>
    intro d d' i data hr h
    unfold NetStringDecoder.feedLoop at h
    split at h
    · simp at h
    · simp only [Outcome.done.injEq] at h
      exact h ▸ hr
  | succ k ih =>
    intro d d' i data hr h
    rw [feedLoop_succ] at h
    split at h
    · cases hp : d.parse i data with
      | none => rw [hp] at h; simp at h
      | some r =>
        rw [hp] at h
        exact ih r.1 d' r.2 data (Reachable.step hr hp trivial) h
    · simp only [Outcome.done.injEq] at h
      exact h ▸ hr

/-- The decoder a `FeedData` call ends with is reachable when the one it started with is. -/
theorem Reachable_FeedData {d d' : NetStringDecoder} {data : List UInt8}
    (hr : Reachable (fun _ => True) d) (h : d.FeedData data = Outcome.done d') :
    Reachable (fun _ => True) d' :=
  Reachable_feedLoop _ d d' 0 data hr h

theorem Reachable_feedAll (chunks : List (List UInt8)) :
    ∀ (d d' : NetStringDecoder), Reachable (fun _ => True) d →
      feedAll (Outcome.done d) chunks = Outcome.done d' → Reachable (fun _ => True) d' := by
  induction chunks with
  | nil =>
    intro d d' hr h
    simp only [feedAll, Outcome.done.injEq] at h
    exact h ▸ hr
  | cons c cs ih =>
    intro d d' hr h
    simp only [feedAll] at h
    cases hf : d.FeedData c with
    | done d1 =>
      rw [hf] at h
      exact ih d1 d' (Reachable_FeedData hr hf) h
    | panic => rw [hf, feedAll_panic] at h; simp at h
    | outOfFuel => rw [hf, feedAll_outOfFuel] at h; simp at h

theorem wrapInt_range (x : Int) : -2 ^ 63 ≤ wrapInt x ∧ wrapInt x < 2 ^ 63 := by
  unfold wrapInt
  omega

theorem wrapInt_add_of_nonneg {x y : Int} (hx : 0 ≤ x) (hx2 : x < 2 ^ 63) (hy : 0 ≤ y)
    (hy2 : y < 2 ^ 63) (h : 0 ≤ wrapInt (x + y)) : wrapInt (x + y) = x + y := by
  unfold wrapInt at h ⊢
  omega

theorem SplitInv_NewDecoder : SplitInv NewDecoder := by
  simp [SplitInv, NewDecoder]

theorem SplitInv_step {d d' : NetStringDecoder} {i i' : Nat} {data : List UInt8}
    (h : SplitInv d) (hp : d.parse i data = some (d', i')) (hok : NonNeg d') :
    SplitInv d' := by
  obtain ⟨hl0, hl1, hb0, hb1, hout, hD, hE, hH⟩ := h
  obtain ⟨ok1, ok2⟩ := hok
  obtain ⟨symbol, -, hc⟩ := parse_step_cases hp
  rcases hc with ⟨hs, -, rfl, -⟩ | ⟨hs, -, rfl, -⟩ | ⟨hs, -, rfl, -⟩ | ⟨hs, -, rfl, -⟩ |
    ⟨hs, -, rfl, -⟩ | ⟨hs, -, -, rfl, -⟩ | ⟨hs, -, -, rfl, -⟩ | ⟨hs, n, hn1, hn2, -, rfl, -⟩ |
    ⟨hs, -, rfl, -⟩ | ⟨hs, -, rfl, -⟩
  · have hpd : d.parsedData = [] := hH (by simp [hs]) (by simp [hs])
    exact ⟨ok1, (wrapInt_range _).2, hb0, hb1, hout, fun hc => by simp [hs] at hc,
      fun hc => by simp [hs] at hc, fun _ _ => hpd⟩
  · have hpd : d.parsedData = [] := hH (by simp [hs]) (by simp [hs])
    exact ⟨hl0, hl1, hb0, hb1, hout, fun hc => by simp at hc, fun hc => by simp at hc,
      fun _ _ => hpd⟩
  · have hpd : d.parsedData = [] := hH (by simp [hs]) (by simp [hs])
    exact ⟨hl0, hl1, ok2, (wrapInt_range _).2, hout, fun hc => by simp [hs] at hc,
      fun hc => by simp [hs] at hc, fun _ _ => hpd⟩
  · have hpd : d.parsedData = [] := hH (by simp [hs]) (by simp [hs])
    exact ⟨hl0, hl1, hb0, hb1, hout, fun hc => by simp at hc, fun hc => by simp at hc,
      fun _ _ => hpd⟩
  · have hpd : d.parsedData = [] := hH (by simp [hs]) (by simp [hs])
    have hw := wrapInt_add_of_nonneg hl0 hl1 hb0 hb1 ok1
    refine ⟨ok1, (wrapInt_range _).2, hb0, hb1, hout, fun _ => ?_, fun hc => by simp at hc,
      fun hc => by simp at hc⟩
    have hr := (wrapInt_range (d.length + d.binLength)).2
    simp only [hpd, List.length_nil, Nat.cast_zero, zero_add]
    constructor
    · rw [hw]; omega
    · exact hr
  · have hpd : d.parsedData = [] := hH (by simp [hs]) (by simp [hs])
    exact ⟨hl0, hl1, hb0, hb1, hout, fun hc => by simp at hc, fun hc => by simp at hc,
      fun _ _ => hpd⟩
  · exact ⟨by simp [NetStringDecoder.reset], by simp [NetStringDecoder.reset],
      by simp [NetStringDecoder.reset], by simp [NetStringDecoder.reset], hout,
      fun hc => by simp [NetStringDecoder.reset] at hc,
      fun hc => by simp [NetStringDecoder.reset] at hc, fun _ _ => rfl⟩
  · obtain ⟨hD1, hD2⟩ := hD hs
    have hlen : (d.parsedData ++ (data.drop i).take n).length = d.parsedData.length + n := by
      rw [List.length_append, List.length_take, List.length_drop]
      omega
    refine ⟨by simp only; omega, by simp only; omega, hb0, hb1, hout, fun _ => ?_,
      fun hc => ?_, fun h1 h2 => ?_⟩
    · simp only [hlen]
      constructor <;> omega
    · simp only at hc
      split at hc
      · rename_i hz
        simp only [hlen]
        constructor <;> omega
      · simp at hc
    · exfalso
      by_cases hz : d.length - (n : Int) = 0
      · simp [hz] at h2
      · simp [hz] at h1
  · refine ⟨by simp [NetStringDecoder.reset], by simp [NetStringDecoder.reset],
      by simp [NetStringDecoder.reset], by simp [NetStringDecoder.reset], ?_,
      fun hc => by simp [NetStringDecoder.reset] at hc,
      fun hc => by simp [NetStringDecoder.reset] at hc, fun _ _ => rfl⟩
    obtain ⟨hE1, hE2⟩ := hE hs
    intro m hm
    simp only [NetStringDecoder.reset, NetStringDecoder.sendData] at hm
    split at hm
    · exact hout m hm
    · rename_i hne
      rcases List.mem_append.mp hm with h1 | h1
      · exact hout m h1
      · simp only [List.mem_singleton] at h1
        subst h1
        simp only
        have hne2 : d.binLength ≠ 0 := hne
        rw [wrapInt_of_range (by omega) (by omega)]
        constructor <;> omega
  · exact ⟨by simp [NetStringDecoder.reset], by simp [NetStringDecoder.reset],
      by simp [NetStringDecoder.reset], by simp [NetStringDecoder.reset], hout,
      fun hc => by simp [NetStringDecoder.reset] at hc,
      fun hc => by simp [NetStringDecoder.reset] at hc, fun _ _ => rfl⟩

theorem Reachable_SplitInv {d : NetStringDecoder} (h : Reachable NonNeg d) : SplitInv d := by
  induction h with
  | init => exact SplitInv_NewDecoder
  | setEndSymbol symbol _ ih => exact ih
  | setDebugMode mode _ ih => exact ih
  | step _ hp hok ih => exact SplitInv_step ih hp hok

theorem parse_index_lt {d d' : NetStringDecoder} {i i' : Nat} {data : List UInt8}
    (hp : d.parse i data = some (d', i')) : i < data.length := by
  obtain ⟨symbol, hget, -⟩ := parse_step_cases hp
  by_contra hge
  rw [List.getElem?_eq_none (Nat.le_of_not_lt hge)] at hget
  simp at hget

/-- A parse step that returns the index it was given changes the state, in one of three
ways. -/
theorem parse_no_advance {d d' : NetStringDecoder} {i : Nat} {data : List UInt8}
    (hp : d.parse i data = some (d', i)) :
    (d.state = ParseState.parseData ∧ d.length = 0 ∧ d'.state = ParseState.parseEnd) ∨
      (d.state = ParseState.parseEnd ∧ d'.state = ParseState.parseLength) ∨
      ((d.state = ParseState.parseLength ∨ d.state = ParseState.parseBinLength) ∧
        d'.state = ParseState.parseSeparator) := by
  have hlt := parse_index_lt hp
  obtain ⟨symbol, -, hc⟩ := parse_step_cases hp
  rcases hc with ⟨-, -, -, hi⟩ | ⟨hs, -, rfl, -⟩ | ⟨-, -, -, hi⟩ | ⟨hs, -, rfl, -⟩ |
    ⟨-, -, -, hi⟩ | ⟨-, -, -, -, hi⟩ | ⟨-, -, -, -, hi⟩ | ⟨hs, n, hn1, hn2, hn3, rfl, hi⟩ |
    ⟨-, -, -, hi⟩ | ⟨hs, -, rfl, -⟩
  · omega
  · exact Or.inr (Or.inr ⟨Or.inl hs, rfl⟩)
  · omega
  · exact Or.inr (Or.inr ⟨Or.inr hs, rfl⟩)
  · omega
  · omega
  · omega
  · have hn0 : n = 0 := by omega
    subst hn0
    have hl0 : d.length = 0 := by omega
    refine Or.inl ⟨hs, hl0, ?_⟩
    simp [hl0]
  · omega
  · exact Or.inr (Or.inl ⟨hs, rfl⟩)

theorem parseSeparator_advances {d d' : NetStringDecoder} {i i' : Nat} {data : List UInt8}
    (hs : d.state = ParseState.parseSeparator) (hp : d.parse i data = some (d', i')) :
    i' = i + 1 := by
  obtain ⟨symbol, -, hc⟩ := parse_step_cases hp
  rcases hc with ⟨h, -⟩ | ⟨h, -⟩ | ⟨h, -⟩ | ⟨h, -⟩ | ⟨-, -, -, hi⟩ | ⟨-, -, -, -, hi⟩ |
    ⟨-, -, -, -, hi⟩ | ⟨h, -⟩ | ⟨h, -⟩ | ⟨h, -⟩
  all_goals first
    | exact hi
    | (rw [hs] at h; simp at h)

/-- Four parse steps in a row move the index forward. -/
theorem four_steps_advance {d0 d1 d2 d3 d4 : NetStringDecoder} {i0 i1 i2 i3 i4 : Nat}
    {data : List UInt8} (h1 : d0.parse i0 data = some (d1, i1))
    (h2 : d1.parse i1 data = some (d2, i2)) (h3 : d2.parse i2 data = some (d3, i3))
    (h4 : d3.parse i3 data = some (d4, i4)) : i0 < i4 := by
  obtain ⟨a1, -, b1⟩ := parse_bounds (parse_index_lt h1) h1
  obtain ⟨a2, -, b2⟩ := parse_bounds (parse_index_lt h2) h2
  obtain ⟨a3, -, b3⟩ := parse_bounds (parse_index_lt h3) h3
  obtain ⟨a4, -, b4⟩ := parse_bounds (parse_index_lt h4) h4
  have r4 := stateRank_le d4.state
  omega

/-- A parse step taken inside the chunk by a decoder whose `length` is not negative
returns. -/
theorem parse_returns_of_nonneg {d : NetStringDecoder} {i : Nat} {data : List UInt8}
    (hl : 0 ≤ d.length) (hi : i < data.length) :
    ∃ d1 i1, d.parse i data = some (d1, i1) := by
  have hget : data[i]? = some data[i] := List.getElem?_eq_getElem hi
  unfold NetStringDecoder.parse
  cases d.state
  · simp only [NetStringDecoder.parseLength, hget]
    split <;> exact ⟨_, _, rfl⟩
  · simp only [NetStringDecoder.parseBinLength, hget]
    split <;> exact ⟨_, _, rfl⟩
  · simp only [NetStringDecoder.parseSeparator, hget]
    split
    · exact ⟨_, _, rfl⟩
    · split <;> exact ⟨_, _, rfl⟩
  · simp only [NetStringDecoder.parseData, hget, min_eq]
    have hsl : NetStringDecoder.goSlice data (i : Int)
        ((i : Int) + min d.length ((data.length : Int) - (i : Int))) =
          some ((data.drop (i : Int).toNat).take
            ((i : Int) + min d.length ((data.length : Int) - (i : Int)) - (i : Int)).toNat) := by
      unfold NetStringDecoder.goSlice
      rw [if_pos]
      omega
    rw [hsl]
    exact ⟨_, _, rfl⟩
  · simp only [NetStringDecoder.parseEnd, hget]
    split <;> exact ⟨_, _, rfl⟩

/-! ## The claims -/

/-- C1 (round trip): for every byte payload `p` (a Go slice, so shorter than `2^63`),
`FeedData (Encode p)` on the decoder of `NewDecoder` ends without a panic, delivers exactly
the one message `p` on `DataOutput` and nothing on `TextBinDataOutput`, and leaves the
decoder in its initial state: `parseLength`, `length = 0`, `binLength = 0`, empty buffer. -/
theorem roundtrip_single_chunk (p : List UInt8) (hp : p.length < 2 ^ 63) :
    NewDecoder.FeedData (Encode p) =
      Outcome.done
        { parsedData := []
          length := 0
          binLength := 0
          state := ParseState.parseLength
          DataOutput := [p]
          TextBinDataOutput := []
          separatorSymbol := 58
          separatorLengthSymbol := 44
          endSymbol := 44
          debugMode := false } := by
  have h := FeedData_plain_frame NewDecoder p [] Fresh_NewDecoder hp
  rw [FeedData_nil] at h
  have e : Encode p = FormatInt p.length ++ 58 :: (p ++ NewDecoder.endSymbol :: []) := by
    simp [Encode, NewDecoder]
  rw [e, h]
  rfl

theorem roundtrip_single_chunk_witness :
    (bytes "hello world!").length < 2 ^ 63 ∧
      NewDecoder.FeedData (Encode (bytes "hello world!")) =
        Outcome.done
          { parsedData := []
            length := 0
            binLength := 0
            state := ParseState.parseLength
            DataOutput := [bytes "hello world!"]
            TextBinDataOutput := []
            separatorSymbol := 58
            separatorLengthSymbol := 44
            endSymbol := 44
            debugMode := false } :=
  ⟨by decide, roundtrip_single_chunk (bytes "hello world!") (by decide)⟩

/-- C2 (chunk-boundary independence): for every byte payload `p` and every list of consecutive
chunks whose concatenation is `Encode p` (wherever the cuts fall), feeding the chunks one
`FeedData` call after the other to a fresh decoder gives the outcome of the single call
`FeedData (Encode p)`: the one plain message `p`, no mixed message, the same final decoder. -/
theorem chunk_boundary_independence (p : List UInt8) (chunks : List (List UInt8))
    (hp : p.length < 2 ^ 63) (hc : chunks.flatten = Encode p) :
    feedAll (Outcome.done NewDecoder) chunks = NewDecoder.FeedData (Encode p) ∧
      feedAll (Outcome.done NewDecoder) chunks =
        Outcome.done
          { parsedData := []
            length := 0
            binLength := 0
            state := ParseState.parseLength
            DataOutput := [p]
            TextBinDataOutput := []
            separatorSymbol := 58
            separatorLengthSymbol := 44
            endSymbol := 44
            debugMode := false } := by
  have h1 : feedAll (Outcome.done NewDecoder) chunks = NewDecoder.FeedData (Encode p) := by
    rw [feedAll_eq_FeedData_flatten, hc]
    rfl
  refine ⟨h1, ?_⟩
  rw [h1]
  have h := FeedData_Encode NewDecoder p [] Fresh_NewDecoder rfl hp
  rw [FeedData_nil, List.append_nil] at h
  rw [h]
  rfl

theorem chunk_boundary_independence_witness :
    (bytes "hello world!").length < 2 ^ 63 ∧
      [bytes "1", bytes "2:hello", bytes " world!", bytes ","].flatten =
        Encode (bytes "hello world!") ∧
      feedAll (Outcome.done NewDecoder)
          [bytes "1", bytes "2:hello", bytes " world!", bytes ","] =
        NewDecoder.FeedData (Encode (bytes "hello world!")) ∧
      feedAll (Outcome.done NewDecoder)
          [bytes "1", bytes "2:hello", bytes " world!", bytes ","] =
        Outcome.done
          { parsedData := []
            length := 0
            binLength := 0
            state := ParseState.parseLength
            DataOutput := [bytes "hello world!"]
            TextBinDataOutput := []
            separatorSymbol := 58
            separatorLengthSymbol := 44
            endSymbol := 44
            debugMode := false } :=
  ⟨by decide, by decide,
    chunk_boundary_independence (bytes "hello world!")
      [bytes "1", bytes "2:hello", bytes " world!", bytes ","] (by decide) (by decide)⟩

/-- C3 (concatenated frames): for every list of byte payloads `ps`, feeding
`Encode p1 ++ ... ++ Encode pn` to a fresh decoder in one chunk delivers on `DataOutput`
exactly `p1, ..., pn` in that order and nothing on `TextBinDataOutput`; feeding the frames
one `FeedData` call each gives the same outcome. -/
theorem concatenated_frames (ps : List (List UInt8)) (hps : ∀ p ∈ ps, p.length < 2 ^ 63) :
    NewDecoder.FeedData (ps.map Encode).flatten =
        Outcome.done
          { parsedData := []
            length := 0
            binLength := 0
            state := ParseState.parseLength
            DataOutput := ps
            TextBinDataOutput := []
            separatorSymbol := 58
            separatorLengthSymbol := 44
            endSymbol := 44
            debugMode := false } ∧
      feedAll (Outcome.done NewDecoder) (ps.map Encode) =
        NewDecoder.FeedData (ps.map Encode).flatten := by
  constructor
  · have h := FeedData_Encode_list ps [] NewDecoder Fresh_NewDecoder rfl hps
    rw [FeedData_nil, List.append_nil] at h
    rw [h]
    simp [NewDecoder]
  · rw [feedAll_eq_FeedData_flatten]
    rfl

theorem concatenated_frames_witness :
    (∀ p ∈ [bytes "How are you?", bytes "", bytes "I am fine"], p.length < 2 ^ 63) ∧
      (NewDecoder.FeedData
          ([bytes "How are you?", bytes "", bytes "I am fine"].map Encode).flatten =
        Outcome.done
          { parsedData := []
            length := 0
            binLength := 0
            state := ParseState.parseLength
            DataOutput := [bytes "How are you?", bytes "", bytes "I am fine"]
            TextBinDataOutput := []
            separatorSymbol := 58
            separatorLengthSymbol := 44
            endSymbol := 44
            debugMode := false } ∧
      feedAll (Outcome.done NewDecoder)
          ([bytes "How are you?", bytes "", bytes "I am fine"].map Encode) =
        NewDecoder.FeedData
          ([bytes "How are you?", bytes "", bytes "I am fine"].map Encode).flatten) :=
  ⟨by decide,
    concatenated_frames [bytes "How are you?", bytes "", bytes "I am fine"] (by decide)⟩

/-- C4 (mixed-frame split): for every text of length `t ≥ 0` and binary part of length
`b ≥ 1` (both inside one Go slice, so `t + b < 2^63`), feeding
`decimal t ++ "," ++ decimal b ++ ":" ++ text ++ binary ++ ","` to a fresh decoder delivers
exactly one `TextBinaryMsg` on `TextBinDataOutput`, with `Data = text ++ binary` (of length
`t + b`) and `TextLength = t`, and nothing on `DataOutput`. -/
theorem mixed_frame_split (text binary : List UInt8) (hbin : 1 ≤ binary.length)
    (hlen : text.length + binary.length < 2 ^ 63) :
    NewDecoder.FeedData
        (decimal text.length ++ [44] ++ decimal binary.length ++ [58] ++ text ++ binary ++
          [44]) =
        Outcome.done
          { parsedData := []
            length := 0
            binLength := 0
            state := ParseState.parseLength
            DataOutput := []
            TextBinDataOutput := [{ Data := text ++ binary, TextLength := (text.length : Int) }]
            separatorSymbol := 58
            separatorLengthSymbol := 44
            endSymbol := 44
            debugMode := false } ∧
      (text ++ binary).length = text.length + binary.length := by
  refine ⟨?_, List.length_append _ _⟩
  have h := FeedData_mixed_frame NewDecoder text binary [] Fresh_NewDecoder hbin hlen
  rw [FeedData_nil] at h
  have e : decimal text.length ++ [44] ++ decimal binary.length ++ [58] ++ text ++ binary ++
      [44] = FormatInt text.length ++ 44 :: (FormatInt binary.length ++
        58 :: ((text ++ binary) ++ NewDecoder.endSymbol :: [])) := by
    simp [FormatInt_eq_decimal, NewDecoder]
  rw [e, h]
  rfl

theorem mixed_frame_split_witness :
    1 ≤ ([24, 45, 68, 84] : List UInt8).length ∧
      (bytes "hello world!").length + ([24, 45, 68, 84] : List UInt8).length < 2 ^ 63 ∧
      (NewDecoder.FeedData
          (decimal (bytes "hello world!").length ++ [44] ++
            decimal ([24, 45, 68, 84] : List UInt8).length ++ [58] ++ bytes "hello world!" ++
            [24, 45, 68, 84] ++ [44]) =
        Outcome.done
          { parsedData := []
            length := 0
            binLength := 0
            state := ParseState.parseLength
            DataOutput := []
            TextBinDataOutput :=
              [{ Data := bytes "hello world!" ++ [24, 45, 68, 84]
                 TextLength := ((bytes "hello world!").length : Int) }]
            separatorSymbol := 58
            separatorLengthSymbol := 44
            endSymbol := 44
            debugMode := false } ∧
      (bytes "hello world!" ++ [24, 45, 68, 84]).length =
        (bytes "hello world!").length + ([24, 45, 68, 84] : List UInt8).length) :=
  ⟨by decide, by decide,
    mixed_frame_split (bytes "hello world!") [24, 45, 68, 84] (by decide) (by decide)⟩

/-- C5 (configurable terminator): for every byte `e` and every byte payload `p`, the decoder
made by `NewDecoder` and `SetEndSymbol e`, fed `decimal (len p) ++ ":" ++ p ++ [e]`, delivers
exactly the one plain message `p` (and no mixed message). -/
theorem configurable_terminator (e : UInt8) (p : List UInt8) (hp : p.length < 2 ^ 63) :
    (NewDecoder.SetEndSymbol e).FeedData (decimal p.length ++ [58] ++ p ++ [e]) =
      Outcome.done
        { parsedData := []
          length := 0
          binLength := 0
          state := ParseState.parseLength
          DataOutput := [p]
          TextBinDataOutput := []
          separatorSymbol := 58
          separatorLengthSymbol := 44
          endSymbol := e
          debugMode := false } := by
  have h := FeedData_plain_frame (NewDecoder.SetEndSymbol e) p []
    (Fresh_SetEndSymbol Fresh_NewDecoder e) hp
  rw [FeedData_nil] at h
  have e1 : decimal p.length ++ [58] ++ p ++ [e] =
      FormatInt p.length ++ 58 :: (p ++ (NewDecoder.SetEndSymbol e).endSymbol :: []) := by
    simp [FormatInt_eq_decimal, NewDecoder, NetStringDecoder.SetEndSymbol]
  rw [e1, h]
  rfl

theorem configurable_terminator_witness :
    (bytes "hello").length < 2 ^ 63 ∧
      (NewDecoder.SetEndSymbol 59).FeedData
          (decimal (bytes "hello").length ++ [58] ++ bytes "hello" ++ [59]) =
        Outcome.done
          { parsedData := []
            length := 0
            binLength := 0
            state := ParseState.parseLength
            DataOutput := [bytes "hello"]
            TextBinDataOutput := []
            separatorSymbol := 58
            separatorLengthSymbol := 44
            endSymbol := 59
            debugMode := false } :=
  ⟨by decide, configurable_terminator 59 (bytes "hello") (by decide)⟩

/-- C6 (wrong terminator drops the frame): for every configured end symbol `e`, every byte
`c ≠ e` and every byte payload `p`, feeding `decimal (len p) ++ ":" ++ p ++ [c]` to a fresh
decoder configured with `e` ends with no message on either sink; the outcome is that of
feeding the byte `c` alone; and a `parseEnd` step that sees `c` (in any decoder whose end
symbol is `e`) leaves the decoder reset: `parseLength`, `length = 0`, `binLength = 0`, empty
buffer. -/
theorem wrong_terminator_drops_frame (e c : UInt8) (p : List UInt8) (hc : c ≠ e)
    (hp : p.length < 2 ^ 63) :
    (∃ d', (NewDecoder.SetEndSymbol e).FeedData (decimal p.length ++ [58] ++ p ++ [c]) =
        Outcome.done d' ∧ d'.DataOutput = [] ∧ d'.TextBinDataOutput = []) ∧
      (NewDecoder.SetEndSymbol e).FeedData (decimal p.length ++ [58] ++ p ++ [c]) =
        (NewDecoder.SetEndSymbol e).FeedData [c] ∧
      (∀ (d : NetStringDecoder) (i : Nat) (data : List UInt8),
        d.state = ParseState.parseEnd → d.endSymbol = e → data[i]? = some c →
          ∃ d' i', d.parse i data = some (d', i') ∧ d'.state = ParseState.parseLength ∧
            d'.length = 0 ∧ d'.binLength = 0 ∧ d'.parsedData = [] ∧
            d'.DataOutput = d.DataOutput ∧ d'.TextBinDataOutput = d.TextBinDataOutput) := by
  have hF : Fresh (NewDecoder.SetEndSymbol e) := Fresh_SetEndSymbol Fresh_NewDecoder e
  have e1 : decimal p.length ++ [58] ++ p ++ [c] =
      FormatInt p.length ++ 58 :: (p ++ c :: []) := by
    simp [FormatInt_eq_decimal]
  have h := FeedData_plain_frame_dropped (NewDecoder.SetEndSymbol e) p [] c hF hc hp
  refine ⟨?_, ?_, ?_⟩
  · obtain ⟨d', h1, h2, h3⟩ := FeedData_single_no_output (NewDecoder.SetEndSymbol e) c hF
    exact ⟨d', by rw [e1, h, h1], h2, h3⟩
  · rw [e1, h]
  · intro d i data hs he hget
    refine ⟨d.reset, i, ?_, rfl, rfl, rfl, rfl, rfl, rfl⟩
    have hne : c ≠ d.endSymbol := by rw [he]; exact hc
    simp [NetStringDecoder.parse, hs, NetStringDecoder.parseEnd, hget, hne]

theorem wrong_terminator_drops_frame_witness :
    (44 : UInt8) ≠ 59 ∧ (bytes "hello").length < 2 ^ 63 ∧
      ((∃ d', (NewDecoder.SetEndSymbol 59).FeedData
            (decimal (bytes "hello").length ++ [58] ++ bytes "hello" ++ [44]) =
          Outcome.done d' ∧ d'.DataOutput = [] ∧ d'.TextBinDataOutput = []) ∧
        (NewDecoder.SetEndSymbol 59).FeedData
            (decimal (bytes "hello").length ++ [58] ++ bytes "hello" ++ [44]) =
          (NewDecoder.SetEndSymbol 59).FeedData [44] ∧
        (∀ (d : NetStringDecoder) (i : Nat) (data : List UInt8),
          d.state = ParseState.parseEnd → d.endSymbol = 59 → data[i]? = some 44 →
            ∃ d' i', d.parse i data = some (d', i') ∧ d'.state = ParseState.parseLength ∧
              d'.length = 0 ∧ d'.binLength = 0 ∧ d'.parsedData = [] ∧
              d'.DataOutput = d.DataOutput ∧ d'.TextBinDataOutput = d.TextBinDataOutput)) :=
  ⟨by decide, by decide,
    wrong_terminator_drops_frame 59 44 (bytes "hello") (by decide) (by decide)⟩

set_option maxRecDepth 100000 in
/-- C7, the claim as stated fails: a decoder in state `parseEnd` with end symbol `','` that
sees `';'` at index 0 returns index 0, not 1; the byte is read again by `parseLength`, as
the run on `"1:a5:hello,"` shows, where the `'5'` at the terminator position of the first
frame still serves as the length of the second. -/
theorem parseEnd_consumes_counterexample :
    ({ NewDecoder with state := ParseState.parseEnd, parsedData := bytes "hi" } :
        NetStringDecoder).parseEnd 0 (bytes ";") = some (NewDecoder, 0) ∧
      ¬ (∃ d', ({ NewDecoder with state := ParseState.parseEnd, parsedData := bytes "hi" } :
        NetStringDecoder).parseEnd 0 (bytes ";") = some (d', 0 + 1)) ∧
      NewDecoder.FeedData (bytes "1:a5:hello,") =
        Outcome.done { NewDecoder with DataOutput := [bytes "hello"] } := by
  refine ⟨by decide, ?_, by decide⟩
  rintro ⟨d', h⟩
  have h0 : ({ NewDecoder with state := ParseState.parseEnd, parsedData := bytes "hi" } :
        NetStringDecoder).parseEnd 0 (bytes ";") = some (NewDecoder, 0) := by decide
  rw [h0] at h
  simp at h

/-- C7 as amended: for every decoder in state `parseEnd`, every chunk `data` and index
`i < len data`, the `parseEnd` step resets the decoder (empty buffer, `length = 0`,
`binLength = 0`, state `parseLength`). When `data[i]` equals `endSymbol` it returns `i + 1`
after delivering the buffer as it was before the reset (on `DataOutput` when
`binLength = 0`, else as a `TextBinaryMsg` on `TextBinDataOutput`). When `data[i]` differs
from `endSymbol` it returns `i` and delivers nothing, and the next step is `parseLength` on
that same byte: a digit becomes the first digit of the next length, any other byte sends
the decoder to `parseSeparator`, still at `i`. -/
theorem parseEnd_step (d : NetStringDecoder) (data : List UInt8) (i : Nat)
    (hs : d.state = ParseState.parseEnd) (hi : i < data.length) :
    ∃ symbol, data[i]? = some symbol ∧
      (symbol = d.endSymbol →
        d.parse i data =
          some
            ({ d with
               parsedData := []
               length := 0
               binLength := 0
               state := ParseState.parseLength
               DataOutput :=
                 if d.binLength = 0 then d.DataOutput ++ [d.parsedData] else d.DataOutput
               TextBinDataOutput :=
                 if d.binLength = 0 then d.TextBinDataOutput
                 else d.TextBinDataOutput ++
                   [{ Data := d.parsedData
                      TextLength := wrapInt ((d.parsedData.length : Int) - d.binLength) }] },
              i + 1)) ∧
      (symbol ≠ d.endSymbol →
        d.parse i data =
            some
              ({ d with
                 parsedData := []
                 length := 0
                 binLength := 0
                 state := ParseState.parseLength }, i) ∧
          ({ d with
             parsedData := []
             length := 0
             binLength := 0
             state := ParseState.parseLength } : NetStringDecoder).parse i data =
            (if symbol ≥ 48 ∧ symbol ≤ 57 then
              some
                ({ d with
                   parsedData := []
                   length := wrapInt (0 * 10 + ((symbol.toNat : Int) - 48))
                   binLength := 0
                   state := ParseState.parseLength }, i + 1)
            else
              some
                ({ d with
                   parsedData := []
                   length := 0
                   binLength := 0
                   state := ParseState.parseSeparator }, i))) := by
  have hget : data[i]? = some data[i] := List.getElem?_eq_getElem hi
  refine ⟨data[i], hget, ?_, ?_⟩
  · intro he
    simp only [NetStringDecoder.parse, hs, NetStringDecoder.parseEnd, hget, he, if_true,
      NetStringDecoder.sendData, NetStringDecoder.reset]
    by_cases hb : d.binLength = 0
    · simp [hb]
    · simp [hb]
  · intro hne
    constructor
    · simp only [NetStringDecoder.parse, hs, NetStringDecoder.parseEnd, hget, hne, if_false,
        NetStringDecoder.reset]
    · simp only [NetStringDecoder.parse, NetStringDecoder.parseLength, hget]

set_option maxRecDepth 100000 in
theorem parseEnd_step_witness :
    busyEndDecoder.state = ParseState.parseEnd ∧ 4 < (bytes "2:hi;").length ∧
      ∃ symbol, (bytes "2:hi;")[4]? = some symbol ∧
        (symbol = busyEndDecoder.endSymbol →
          busyEndDecoder.parse 4 (bytes "2:hi;") =
            some
              ({ busyEndDecoder with
                 parsedData := []
                 length := 0
                 binLength := 0
                 state := ParseState.parseLength
                 DataOutput :=
                   if busyEndDecoder.binLength = 0 then
                     busyEndDecoder.DataOutput ++ [busyEndDecoder.parsedData]
                   else busyEndDecoder.DataOutput
                 TextBinDataOutput :=
                   if busyEndDecoder.binLength = 0 then busyEndDecoder.TextBinDataOutput
                   else busyEndDecoder.TextBinDataOutput ++
                     [{ Data := busyEndDecoder.parsedData
                        TextLength :=
                          wrapInt ((busyEndDecoder.parsedData.length : Int) -
                            busyEndDecoder.binLength) }] },
                4 + 1)) ∧
        (symbol ≠ busyEndDecoder.endSymbol →
          busyEndDecoder.parse 4 (bytes "2:hi;") =
              some
                ({ busyEndDecoder with
                   parsedData := []
                   length := 0
                   binLength := 0
                   state := ParseState.parseLength }, 4) ∧
            ({ busyEndDecoder with
               parsedData := []
               length := 0
               binLength := 0
               state := ParseState.parseLength } : NetStringDecoder).parse 4
                (bytes "2:hi;") =
              (if symbol ≥ 48 ∧ symbol ≤ 57 then
                some
                  ({ busyEndDecoder with
                     parsedData := []
                     length := wrapInt (0 * 10 + ((symbol.toNat : Int) - 48))
                     binLength := 0
                     state := ParseState.parseLength }, 4 + 1)
              else
                some
                  ({ busyEndDecoder with
                     parsedData := []
                     length := 0
                     binLength := 0
                     state := ParseState.parseSeparator }, 4))) :=
  ⟨rfl, by decide, parseEnd_step busyEndDecoder (bytes "2:hi;") 4 rfl (by decide)⟩

/-- C8 (encoder definition): `Encode p` is `decimal (len p) ++ ":" ++ p ++ ","`, where
`decimal n` is the base-10 ASCII string of `n`: digits only, denoting `n`, `"0"` for zero and
otherwise without a leading zero. `Encode "hello"` is `"5:hello,"`, and
`len (Encode p) = len (decimal (len p)) + len p + 2`. -/
theorem Encode_eq_decimal_frame (p : List UInt8) :
    Encode p = decimal p.length ++ [58] ++ p ++ [44] ∧
      (decimal p.length).all (fun b => decide (b ≥ 48 ∧ b ≤ 57)) = true ∧
      decimalValue (decimal p.length) = p.length ∧
      decimal 0 = [48] ∧
      (p.length = 0 ∨ (decimal p.length).head? ≠ some 48) ∧
      Encode (bytes "hello") = bytes "5:hello," ∧
      (Encode p).length = (decimal p.length).length + p.length + 2 := by
  refine ⟨?_, ?_, ?_, rfl, ?_, by decide, ?_⟩
  · simp [Encode, FormatInt_eq_decimal]
  · rw [← FormatInt_eq_decimal, List.all_eq_true]
    intro b hb
    exact decide_eq_true (FormatInt_isDigit _ b hb)
  · rw [← FormatInt_eq_decimal]
    exact decimalValue_formatDigits _ _ (by omega)
  · by_cases h0 : p.length = 0
    · exact Or.inl h0
    · right
      rw [← FormatInt_eq_decimal]
      exact formatDigits_head _ _ (by omega) h0
  · simp [Encode, FormatInt_eq_decimal]
    omega

/-- C9 (resync after a malformed header): for every header `h` made of digits, optionally
`','` and more digits, and then one byte that is neither a digit nor `':'` nor `','`, and
every byte payload `p`: feeding `h` alone to a fresh decoder delivers nothing and leaves it
fully reset (`parseLength`, `length = 0`, `binLength = 0`, empty buffer), and feeding
`h ++ Encode p` delivers exactly the one plain message `p`. -/
theorem resync_after_malformed_header (ds : List UInt8) (bin : Option (List UInt8))
    (x : UInt8) (p : List UInt8) (hds : ∀ b ∈ ds, b ≥ 48 ∧ b ≤ 57)
    (hbin : ∀ b ∈ bin.getD [], b ≥ 48 ∧ b ≤ 57) (hx : ¬ (x ≥ 48 ∧ x ≤ 57)) (hx1 : x ≠ 58)
    (hx2 : x ≠ 44) (hp : p.length < 2 ^ 63) :
    NewDecoder.FeedData (malformedHeader ds bin x) = Outcome.done NewDecoder ∧
      NewDecoder.FeedData (malformedHeader ds bin x ++ Encode p) =
        Outcome.done
          { parsedData := []
            length := 0
            binLength := 0
            state := ParseState.parseLength
            DataOutput := [p]
            TextBinDataOutput := []
            separatorSymbol := 58
            separatorLengthSymbol := 44
            endSymbol := 44
            debugMode := false } := by
  constructor
  · have h := FeedData_malformedHeader NewDecoder ds bin x [] Fresh_NewDecoder hds hbin hx
      hx1 hx2
    rw [List.append_nil, FeedData_nil] at h
    exact h
  · rw [FeedData_malformedHeader NewDecoder ds bin x _ Fresh_NewDecoder hds hbin hx hx1 hx2]
    have h := FeedData_Encode NewDecoder p [] Fresh_NewDecoder rfl hp
    rw [FeedData_nil, List.append_nil] at h
    rw [h]
    rfl

theorem resync_after_malformed_header_witness :
    (∀ b ∈ bytes "12", b ≥ 48 ∧ b ≤ 57) ∧
      (∀ b ∈ (some (bytes "34")).getD [], b ≥ 48 ∧ b ≤ 57) ∧
      ¬ ((120 : UInt8) ≥ 48 ∧ (120 : UInt8) ≤ 57) ∧ (120 : UInt8) ≠ 58 ∧ (120 : UInt8) ≠ 44 ∧
      (bytes "hello").length < 2 ^ 63 ∧
      (NewDecoder.FeedData (malformedHeader (bytes "12") (some (bytes "34")) 120) =
          Outcome.done NewDecoder ∧
        NewDecoder.FeedData
            (malformedHeader (bytes "12") (some (bytes "34")) 120 ++ Encode (bytes "hello")) =
          Outcome.done
            { parsedData := []
              length := 0
              binLength := 0
              state := ParseState.parseLength
              DataOutput := [bytes "hello"]
              TextBinDataOutput := []
              separatorSymbol := 58
              separatorLengthSymbol := 44
              endSymbol := 44
              debugMode := false }) :=
  ⟨by decide, by decide, by decide, by decide, by decide, by decide,
    resync_after_malformed_header (bytes "12") (some (bytes "34")) 120 (bytes "hello")
      (by decide) (by decide) (by decide) (by decide) (by decide) (by decide)⟩

set_option maxRecDepth 100000 in
/-- C10, the failing run: the length field `9223372036854775808` (`2^63`) wraps to `-2^63`
in 64-bit `int` arithmetic; `parseData` then takes `data[i:i+dataLength]` with a negative
`dataLength`, and `FeedData` panics with a slice bound out of range. -/
theorem FeedData_panics_on_overflowing_length :
    NewDecoder.FeedData (bytes "9223372036854775808:x") = Outcome.panic := by
  decide

set_option maxRecDepth 100000 in
/-- C11, the failing runs: the chunk `"9223372036854775808"` leaves the decoder of
`NewDecoder` with `length = -2^63`, and `",9223372036854775808"` leaves it with
`binLength = -2^63`: the digit fold wraps in 64-bit `int` arithmetic, so a reachable state
has a negative length field. -/
theorem length_negative_after_overflow :
    NewDecoder.FeedData (bytes "9223372036854775808") =
        Outcome.done { NewDecoder with length := -9223372036854775808 } ∧
      NewDecoder.FeedData (bytes ",9223372036854775808") =
        Outcome.done
          { NewDecoder with
            binLength := -9223372036854775808
            state := ParseState.parseBinLength } ∧
      (-9223372036854775808 : Int) < 0 := by
  decide

set_option maxRecDepth 100000 in
/-- C12, the claim as stated fails: after the chunk `"5:hel"` the decoder of `NewDecoder` is
in state `parseData` with a buffer of 3 bytes and `length = 2`, the bytes still to come. -/
theorem buffer_bound_counterexample :
    NewDecoder.FeedData (bytes "5:hel") =
        Outcome.done
          { NewDecoder with
            parsedData := bytes "hel"
            length := 2
            state := ParseState.parseData } ∧
      ¬ (((bytes "hel").length : Int) ≤ 2) := by
  decide

/-- C12 as amended: in state `parseData` the field `length` is the number of payload bytes
still to be read. Every `parseData` step that returns keeps `len parsedData + length`
unchanged, leaves `length ≥ 0` and stays in `parseData` or moves to `parseEnd`; and after
`decimal n ++ ":" ++ s` with `len s < n` a fresh decoder is in `parseData` with
`parsedData = s` and `length = n - len s`, so the buffer is bounded by the declared length
`n`, not by `length`. -/
theorem buffer_plus_length_constant (d d' : NetStringDecoder) (i i' : Nat)
    (data : List UInt8) (n : Nat) (s : List UInt8) (hs : d.state = ParseState.parseData)
    (hp : d.parse i data = some (d', i')) (hn : n < 2 ^ 63) (hsn : s.length < n) :
    ((d'.parsedData.length : Int) + d'.length = (d.parsedData.length : Int) + d.length ∧
        0 ≤ d'.length ∧
        (d'.state = ParseState.parseData ∨ d'.state = ParseState.parseEnd)) ∧
      NewDecoder.FeedData (decimal n ++ [58] ++ s) =
        Outcome.done
          { NewDecoder with
            parsedData := s
            length := ((n - s.length : Nat) : Int)
            state := ParseState.parseData } := by
  constructor
  · obtain ⟨symbol, -, hc⟩ := parse_step_cases hp
    rcases hc with ⟨h, -⟩ | ⟨h, -⟩ | ⟨h, -⟩ | ⟨h, -⟩ | ⟨h, -⟩ | ⟨h, -⟩ | ⟨h, -⟩ |
      ⟨-, m, hm1, hm2, -, rfl, -⟩ | ⟨h, -⟩ | ⟨h, -⟩
    all_goals try (rw [hs] at h; simp at h)
    have hlen : (d.parsedData ++ (data.drop i).take m).length = d.parsedData.length + m := by
      rw [List.length_append, List.length_take, List.length_drop]
      omega
    refine ⟨?_, ?_, ?_⟩
    · simp only [hlen]
      omega
    · simp only
      omega
    · simp only
      by_cases hz : d.length - (m : Int) = 0
      · right; simp [hz]
      · left; simp [hz]
  · have h := FeedData_partial_payload NewDecoder n s Fresh_NewDecoder hn hsn
    have e : decimal n ++ [58] ++ s = FormatInt n ++ 58 :: s := by
      simp [FormatInt_eq_decimal]
    rw [e, h]

set_option maxRecDepth 100000 in
theorem buffer_plus_length_constant_witness :
    ({ NewDecoder with state := ParseState.parseData, length := 5 } :
        NetStringDecoder).state = ParseState.parseData ∧
      ({ NewDecoder with state := ParseState.parseData, length := 5 } :
        NetStringDecoder).parse 0 (bytes "hel") =
        some ({ NewDecoder with
                state := ParseState.parseData
                length := 2
                parsedData := bytes "hel" }, 3) ∧
      5 < 2 ^ 63 ∧ (bytes "hel").length < 5 ∧
      ((((({ NewDecoder with
              state := ParseState.parseData
              length := 2
              parsedData := bytes "hel" } : NetStringDecoder).parsedData.length : Int) +
            ({ NewDecoder with
              state := ParseState.parseData
              length := 2
              parsedData := bytes "hel" } : NetStringDecoder).length =
          (({ NewDecoder with state := ParseState.parseData, length := 5 } :
              NetStringDecoder).parsedData.length : Int) +
            ({ NewDecoder with state := ParseState.parseData, length := 5 } :
              NetStringDecoder).length) ∧
          0 ≤ ({ NewDecoder with
              state := ParseState.parseData
              length := 2
              parsedData := bytes "hel" } : NetStringDecoder).length ∧
          (({ NewDecoder with
              state := ParseState.parseData
              length := 2
              parsedData := bytes "hel" } : NetStringDecoder).state = ParseState.parseData ∨
            ({ NewDecoder with
              state := ParseState.parseData
              length := 2
              parsedData := bytes "hel" } : NetStringDecoder).state = ParseState.parseEnd)) ∧
        NewDecoder.FeedData (decimal 5 ++ [58] ++ bytes "hel") =
          Outcome.done
            { NewDecoder with
              parsedData := bytes "hel"
              length := ((5 - (bytes "hel").length : Nat) : Int)
              state := ParseState.parseData }) :=
  ⟨rfl, by decide, by decide, by decide,
    buffer_plus_length_constant
      { NewDecoder with state := ParseState.parseData, length := 5 }
      { NewDecoder with state := ParseState.parseData, length := 2, parsedData := bytes "hel" }
      0 3 (bytes "hel") 5 (bytes "hel") rfl (by decide) (by decide) (by decide)⟩

/-- C13 (clean-header invariant): in every decoder state reachable from `NewDecoder` (by
`SetEndSymbol`, `SetDebugMode` and the parse steps of `FeedData` calls; the decoder a
`FeedData` call ends with is among them, see `Reachable_FeedData`), state `parseLength` comes
with `binLength = 0` and an empty buffer, and states `parseBinLength` and `parseSeparator`
come with an empty buffer. -/
theorem clean_header_invariant (d : NetStringDecoder) (h : Reachable (fun _ => True) d) :
    (d.state = ParseState.parseLength → d.binLength = 0 ∧ d.parsedData = []) ∧
      (d.state = ParseState.parseBinLength ∨ d.state = ParseState.parseSeparator →
        d.parsedData = []) :=
  Reachable_CleanHeader h

set_option maxRecDepth 100000 in
theorem clean_header_invariant_witness :
    Reachable (fun _ => True)
        ({ NewDecoder with
           DataOutput := [bytes "hi"]
           length := 7
           binLength := 3
           state := ParseState.parseBinLength } : NetStringDecoder) ∧
      ((({ NewDecoder with
           DataOutput := [bytes "hi"]
           length := 7
           binLength := 3
           state := ParseState.parseBinLength } : NetStringDecoder).state =
          ParseState.parseLength →
        ({ NewDecoder with
           DataOutput := [bytes "hi"]
           length := 7
           binLength := 3
           state := ParseState.parseBinLength } : NetStringDecoder).binLength = 0 ∧
        ({ NewDecoder with
           DataOutput := [bytes "hi"]
           length := 7
           binLength := 3
           state := ParseState.parseBinLength } : NetStringDecoder).parsedData = []) ∧
      (({ NewDecoder with
           DataOutput := [bytes "hi"]
           length := 7
           binLength := 3
           state := ParseState.parseBinLength } : NetStringDecoder).state =
          ParseState.parseBinLength ∨
        ({ NewDecoder with
           DataOutput := [bytes "hi"]
           length := 7
           binLength := 3
           state := ParseState.parseBinLength } : NetStringDecoder).state =
          ParseState.parseSeparator →
        ({ NewDecoder with
           DataOutput := [bytes "hi"]
           length := 7
           binLength := 3
           state := ParseState.parseBinLength } : NetStringDecoder).parsedData = [])) :=
  ⟨Reachable_FeedData Reachable.init
      (by decide : NewDecoder.FeedData (bytes "2:hi,7,3") = Outcome.done _),
    clean_header_invariant _
      (Reachable_FeedData Reachable.init
        (by decide : NewDecoder.FeedData (bytes "2:hi,7,3") = Outcome.done _))⟩

/-- C14 (delivery rule): for every decoder in state `parseEnd` with buffer `B` and
`binLength = n`, the `parseEnd` step on a byte equal to `endSymbol` returns `i + 1` and
delivers exactly one message built from `B` and `n` as they are before the reset: the plain
message `B` on `DataOutput` when `n = 0`, else `TextBinaryMsg{B, len B - n}` (Go `int`
subtraction, which is `len B - n` whenever that is in range) on `TextBinDataOutput`; the
other sink is untouched and the decoder is reset. -/
theorem delivery_rule (d : NetStringDecoder) (data : List UInt8) (i : Nat)
    (hs : d.state = ParseState.parseEnd) (hget : data[i]? = some d.endSymbol) :
    d.parse i data =
        some
          ({ d with
             parsedData := []
             length := 0
             binLength := 0
             state := ParseState.parseLength
             DataOutput :=
               if d.binLength = 0 then d.DataOutput ++ [d.parsedData] else d.DataOutput
             TextBinDataOutput :=
               if d.binLength = 0 then d.TextBinDataOutput
               else d.TextBinDataOutput ++
                 [{ Data := d.parsedData
                    TextLength := wrapInt ((d.parsedData.length : Int) - d.binLength) }] },
            i + 1) ∧
      (-2 ^ 63 ≤ (d.parsedData.length : Int) - d.binLength ∧
          (d.parsedData.length : Int) - d.binLength < 2 ^ 63 →
        wrapInt ((d.parsedData.length : Int) - d.binLength) =
          (d.parsedData.length : Int) - d.binLength) := by
  constructor
  · simp only [NetStringDecoder.parse, hs, NetStringDecoder.parseEnd, hget, if_true,
      NetStringDecoder.sendData, NetStringDecoder.reset]
    by_cases hb : d.binLength = 0
    · simp [hb]
    · simp [hb]
  · intro h
    exact wrapInt_of_range h.1 h.2

set_option maxRecDepth 100000 in
theorem delivery_rule_witness :
    ({ NewDecoder with
       state := ParseState.parseEnd
       parsedData := bytes "abcd"
       binLength := 3 } : NetStringDecoder).state = ParseState.parseEnd ∧
      (bytes "x,")[1]? =
        some ({ NewDecoder with
                state := ParseState.parseEnd
                parsedData := bytes "abcd"
                binLength := 3 } : NetStringDecoder).endSymbol ∧
      (({ NewDecoder with
          state := ParseState.parseEnd
          parsedData := bytes "abcd"
          binLength := 3 } : NetStringDecoder).parse 1 (bytes "x,") =
        some
          ({ ({ NewDecoder with
                state := ParseState.parseEnd
                parsedData := bytes "abcd"
                binLength := 3 } : NetStringDecoder) with
             parsedData := []
             length := 0
             binLength := 0
             state := ParseState.parseLength
             DataOutput :=
               if ({ NewDecoder with
                     state := ParseState.parseEnd
                     parsedData := bytes "abcd"
                     binLength := 3 } : NetStringDecoder).binLength = 0 then
                 ({ NewDecoder with
                    state := ParseState.parseEnd
                    parsedData := bytes "abcd"
                    binLength := 3 } : NetStringDecoder).DataOutput ++
                   [({ NewDecoder with
                       state := ParseState.parseEnd
                       parsedData := bytes "abcd"
                       binLength := 3 } : NetStringDecoder).parsedData]
               else ({ NewDecoder with
                       state := ParseState.parseEnd
                       parsedData := bytes "abcd"
                       binLength := 3 } : NetStringDecoder).DataOutput
             TextBinDataOutput :=
               if ({ NewDecoder with
                     state := ParseState.parseEnd
                     parsedData := bytes "abcd"
                     binLength := 3 } : NetStringDecoder).binLength = 0 then
                 ({ NewDecoder with
                    state := ParseState.parseEnd
                    parsedData := bytes "abcd"
                    binLength := 3 } : NetStringDecoder).TextBinDataOutput
               else ({ NewDecoder with
                       state := ParseState.parseEnd
                       parsedData := bytes "abcd"
                       binLength := 3 } : NetStringDecoder).TextBinDataOutput ++
                 [{ Data := ({ NewDecoder with
                               state := ParseState.parseEnd
                               parsedData := bytes "abcd"
                               binLength := 3 } : NetStringDecoder).parsedData
                    TextLength :=
                      wrapInt
                        ((({ NewDecoder with
                             state := ParseState.parseEnd
                             parsedData := bytes "abcd"
                             binLength := 3 } : NetStringDecoder).parsedData.length : Int) -
                          ({ NewDecoder with
                             state := ParseState.parseEnd
                             parsedData := bytes "abcd"
                             binLength := 3 } : NetStringDecoder).binLength) }] },
            1 + 1) ∧
        (-2 ^ 63 ≤
              (({ NewDecoder with
                  state := ParseState.parseEnd
                  parsedData := bytes "abcd"
                  binLength := 3 } : NetStringDecoder).parsedData.length : Int) -
                ({ NewDecoder with
                   state := ParseState.parseEnd
                   parsedData := bytes "abcd"
                   binLength := 3 } : NetStringDecoder).binLength ∧
            (({ NewDecoder with
                state := ParseState.parseEnd
                parsedData := bytes "abcd"
                binLength := 3 } : NetStringDecoder).parsedData.length : Int) -
                ({ NewDecoder with
                   state := ParseState.parseEnd
                   parsedData := bytes "abcd"
                   binLength := 3 } : NetStringDecoder).binLength < 2 ^ 63 →
          wrapInt
              ((({ NewDecoder with
                   state := ParseState.parseEnd
                   parsedData := bytes "abcd"
                   binLength := 3 } : NetStringDecoder).parsedData.length : Int) -
                ({ NewDecoder with
                   state := ParseState.parseEnd
                   parsedData := bytes "abcd"
                   binLength := 3 } : NetStringDecoder).binLength) =
            (({ NewDecoder with
                state := ParseState.parseEnd
                parsedData := bytes "abcd"
                binLength := 3 } : NetStringDecoder).parsedData.length : Int) -
              ({ NewDecoder with
                 state := ParseState.parseEnd
                 parsedData := bytes "abcd"
                 binLength := 3 } : NetStringDecoder).binLength)) :=
  ⟨rfl, by decide,
    delivery_rule
      { NewDecoder with state := ParseState.parseEnd, parsedData := bytes "abcd", binLength := 3 }
      (bytes "x,") 1 rfl (by decide)⟩

/-- C15 (zero binary length means plain frame): for every byte payload `p` and every string
`z` of `k` digits `'0'` (non-empty or not), feeding
`decimal (len p) ++ "," ++ z ++ ":" ++ p ++ ","` to a fresh decoder delivers exactly the one
plain message `p` on `DataOutput` and nothing on `TextBinDataOutput`. -/
theorem zero_binary_length_is_plain (p : List UInt8) (k : Nat) (hp : p.length < 2 ^ 63) :
    NewDecoder.FeedData
        (decimal p.length ++ [44] ++ List.replicate k 48 ++ [58] ++ p ++ [44]) =
      Outcome.done
        { parsedData := []
          length := 0
          binLength := 0
          state := ParseState.parseLength
          DataOutput := [p]
          TextBinDataOutput := []
          separatorSymbol := 58
          separatorLengthSymbol := 44
          endSymbol := 44
          debugMode := false } := by
  have h := FeedData_two_field_frame NewDecoder (FormatInt p.length) (List.replicate k 48) p []
    p.length 0 Fresh_NewDecoder (FormatInt_isDigit _) (zeros_isDigit k)
    (foldDigits_FormatInt _ hp) (foldDigits_zeros k) rfl (by omega)
  rw [FeedData_nil] at h
  have e : decimal p.length ++ [44] ++ List.replicate k 48 ++ [58] ++ p ++ [44] =
      FormatInt p.length ++ 44 :: (List.replicate k 48 ++
        58 :: (p ++ NewDecoder.endSymbol :: [])) := by
    simp [FormatInt_eq_decimal, NewDecoder]
  rw [e, h]
  rfl

theorem zero_binary_length_is_plain_witness :
    (bytes "hello").length < 2 ^ 63 ∧
      NewDecoder.FeedData
          (decimal (bytes "hello").length ++ [44] ++ List.replicate 2 48 ++ [58] ++
            bytes "hello" ++ [44]) =
        Outcome.done
          { parsedData := []
            length := 0
            binLength := 0
            state := ParseState.parseLength
            DataOutput := [bytes "hello"]
            TextBinDataOutput := []
            separatorSymbol := 58
            separatorLengthSymbol := 44
            endSymbol := 44
            debugMode := false } :=
  ⟨by decide, zero_binary_length_is_plain (bytes "hello") 2 (by decide)⟩

/-- C16 (`FeedData` is a homomorphism over concatenation): for every decoder state, reachable
or not and whatever its end symbol, and all byte sequences `a` and `b`, well-formed or not,
`FeedData (a ++ b)` has the outcome of `FeedData a` followed by `FeedData b`: the same
messages on both sinks, the same final decoder fields, and a panic in one is a panic in the
other. -/
theorem FeedData_concat_homomorphism (d : NetStringDecoder) (a b : List UInt8) :
    d.FeedData (a ++ b) = feedAll (Outcome.done d) [a, b] := by
  rw [FeedData_append]
  cases hf : d.FeedData a with
  | done d1 =>
    simp only [feedAll, hf, Outcome.andThen]
    cases d1.FeedData b <;> rfl
  | panic => simp only [feedAll, hf, Outcome.andThen]
  | outOfFuel => simp only [feedAll, hf, Outcome.andThen]

/-- C19 (a missing terminator does not swallow the next frame): for all byte payloads `p`
and `q`, feeding `decimal (len p) ++ ":" ++ p ++ Encode q` to a fresh default decoder drops
`p` and delivers exactly the one plain message `q`. -/
theorem missing_terminator_keeps_next_frame (p q : List UInt8) (hp : p.length < 2 ^ 63)
    (hq : q.length < 2 ^ 63) :
    NewDecoder.FeedData (decimal p.length ++ [58] ++ p ++ Encode q) =
      Outcome.done
        { parsedData := []
          length := 0
          binLength := 0
          state := ParseState.parseLength
          DataOutput := [q]
          TextBinDataOutput := []
          separatorSymbol := 58
          separatorLengthSymbol := 44
          endSymbol := 44
          debugMode := false } := by
  obtain ⟨c, rest, he, hc⟩ := Encode_head q
  have hne : c ≠ NewDecoder.endSymbol := by
    intro h
    rw [h] at hc
    exact comma_not_digit hc
  have h := FeedData_plain_frame_dropped NewDecoder p rest c Fresh_NewDecoder hne hp
  have e : decimal p.length ++ [58] ++ p ++ Encode q =
      FormatInt p.length ++ 58 :: (p ++ c :: rest) := by
    simp [FormatInt_eq_decimal, he]
  rw [e, h, ← he]
  have h2 := FeedData_Encode NewDecoder q [] Fresh_NewDecoder rfl hq
  rw [FeedData_nil, List.append_nil] at h2
  rw [h2]
  rfl

theorem missing_terminator_keeps_next_frame_witness :
    (bytes "abc").length < 2 ^ 63 ∧ (bytes "hello").length < 2 ^ 63 ∧
      NewDecoder.FeedData
          (decimal (bytes "abc").length ++ [58] ++ bytes "abc" ++ Encode (bytes "hello")) =
        Outcome.done
          { parsedData := []
            length := 0
            binLength := 0
            state := ParseState.parseLength
            DataOutput := [bytes "hello"]
            TextBinDataOutput := []
            separatorSymbol := 58
            separatorLengthSymbol := 44
            endSymbol := 44
            debugMode := false } :=
  ⟨by decide, by decide,
    missing_terminator_keeps_next_frame (bytes "abc") (bytes "hello") (by decide)
      (by decide)⟩

/-- C20 (a stray `','` before a plain frame turns it into a mixed message): for every
non-empty byte payload `q`, feeding `"," ++ Encode q` to a fresh default decoder delivers
nothing on `DataOutput` and exactly one `TextBinaryMsg` on `TextBinDataOutput`, with
`Data = q` and `TextLength = 0`. -/
theorem stray_comma_makes_mixed_message (q : List UInt8) (hne : 1 ≤ q.length)
    (hq : q.length < 2 ^ 63) :
    NewDecoder.FeedData ([44] ++ Encode q) =
      Outcome.done
        { parsedData := []
          length := 0
          binLength := 0
          state := ParseState.parseLength
          DataOutput := []
          TextBinDataOutput := [{ Data := q, TextLength := 0 }]
          separatorSymbol := 58
          separatorLengthSymbol := 44
          endSymbol := 44
          debugMode := false } := by
  have h := FeedData_two_field_frame NewDecoder [] (FormatInt q.length) q [] 0 q.length
    Fresh_NewDecoder (by simp) (FormatInt_isDigit _) rfl (foldDigits_FormatInt _ hq)
    (by omega) (by omega)
  rw [FeedData_nil] at h
  have e : [44] ++ Encode q =
      [] ++ 44 :: (FormatInt q.length ++ 58 :: (q ++ NewDecoder.endSymbol :: [])) := by
    simp [Encode, NewDecoder]
  have hq0 : q.length ≠ 0 := by omega
  rw [e, h]
  simp [hq0, NewDecoder]

theorem stray_comma_makes_mixed_message_witness :
    1 ≤ (bytes "hello").length ∧ (bytes "hello").length < 2 ^ 63 ∧
      NewDecoder.FeedData ([44] ++ Encode (bytes "hello")) =
        Outcome.done
          { parsedData := []
            length := 0
            binLength := 0
            state := ParseState.parseLength
            DataOutput := []
            TextBinDataOutput := [{ Data := bytes "hello", TextLength := 0 }]
            separatorSymbol := 58
            separatorLengthSymbol := 44
            endSymbol := 44
            debugMode := false } :=
  ⟨by decide, by decide,
    stray_comma_makes_mixed_message (bytes "hello") (by decide) (by decide)⟩

set_option maxRecDepth 100000 in
/-- Outside the proviso of C17: a binary length field of `2^64 - 1` wraps to `-1`, and the
mixed message delivered has an empty `Data` with `TextLength = 1`. -/
theorem mixed_message_split_wraps :
    NewDecoder.FeedData (bytes "1,18446744073709551615:,") =
      Outcome.done
        { NewDecoder with TextBinDataOutput := [{ Data := [], TextLength := 1 }] } := by
  decide

/-- C17 (every delivered mixed message has a valid split point): in every decoder state
reached from `NewDecoder` through states whose `length` and `binLength` are non-negative
(the runs in which the two fields behave as non-negative integers), each `TextBinaryMsg` on
`TextBinDataOutput` satisfies `0 ≤ TextLength < len Data`. -/
theorem mixed_message_split_valid (d : NetStringDecoder) (h : Reachable NonNeg d) :
    ∀ m ∈ d.TextBinDataOutput, 0 ≤ m.TextLength ∧ m.TextLength < (m.Data.length : Int) :=
  (Reachable_SplitInv h).2.2.2.2.1

set_option maxRecDepth 100000 in
theorem mixed_message_split_valid_witness :
    Reachable NonNeg
        ({ NewDecoder with
           TextBinDataOutput := [{ Data := bytes "a", TextLength := 0 }] } :
          NetStringDecoder) ∧
      ∀ m ∈ ({ NewDecoder with
               TextBinDataOutput := [{ Data := bytes "a", TextLength := 0 }] } :
              NetStringDecoder).TextBinDataOutput,
        0 ≤ m.TextLength ∧ m.TextLength < (m.Data.length : Int) :=
  have s1 : Reachable NonNeg ({ NewDecoder with length := 0 } : NetStringDecoder) :=
    Reachable.step Reachable.init
      (by decide : NewDecoder.parse 0 (bytes "0,1:a,") = some (_, 1))
      ⟨by decide, by decide⟩
  have s2 : Reachable NonNeg
      ({ NewDecoder with state := ParseState.parseSeparator } : NetStringDecoder) :=
    Reachable.step s1
      (by decide : NetStringDecoder.parse _ 1 (bytes "0,1:a,") = some (_, 1))
      ⟨by decide, by decide⟩
  have s3 : Reachable NonNeg
      ({ NewDecoder with state := ParseState.parseBinLength } : NetStringDecoder) :=
    Reachable.step s2
      (by decide : NetStringDecoder.parse _ 1 (bytes "0,1:a,") = some (_, 2))
      ⟨by decide, by decide⟩
  have s4 : Reachable NonNeg
      ({ NewDecoder with state := ParseState.parseBinLength, binLength := 1 } :
        NetStringDecoder) :=
    Reachable.step s3
      (by decide : NetStringDecoder.parse _ 2 (bytes "0,1:a,") = some (_, 3))
      ⟨by decide, by decide⟩
  have s5 : Reachable NonNeg
      ({ NewDecoder with state := ParseState.parseSeparator, binLength := 1 } :
        NetStringDecoder) :=
    Reachable.step s4
      (by decide : NetStringDecoder.parse _ 3 (bytes "0,1:a,") = some (_, 3))
      ⟨by decide, by decide⟩
  have s6 : Reachable NonNeg
      ({ NewDecoder with state := ParseState.parseData, binLength := 1, length := 1 } :
        NetStringDecoder) :=
    Reachable.step s5
      (by decide : NetStringDecoder.parse _ 3 (bytes "0,1:a,") = some (_, 4))
      ⟨by decide, by decide⟩
  have s7 : Reachable NonNeg
      ({ NewDecoder with
         state := ParseState.parseEnd
         binLength := 1
         parsedData := bytes "a" } : NetStringDecoder) :=
    Reachable.step s6
      (by decide : NetStringDecoder.parse _ 4 (bytes "0,1:a,") = some (_, 5))
      ⟨by decide, by decide⟩
  have s8 : Reachable NonNeg
      ({ NewDecoder with
         TextBinDataOutput := [{ Data := bytes "a", TextLength := 0 }] } :
        NetStringDecoder) :=
    Reachable.step s7
      (by decide : NetStringDecoder.parse _ 5 (bytes "0,1:a,") = some (_, 6))
      ⟨by decide, by decide⟩
  ⟨s8, mixed_message_split_valid _ s8⟩

/-- The part of C18 that holds of every decoder state and every chunk: the loop of
`FeedData` ends within `4 * len data + 3` parse steps, more fuel changing nothing; a parse
step taken inside the chunk with `length ≥ 0` returns; each parse step that returns gives an
index `i'` with `i ≤ i' ≤ len data`; `parseSeparator` always advances; a step that does not
advance changes the state (`parseData` with `length = 0` to `parseEnd`, `parseEnd` to
`parseLength`, `parseLength` or `parseBinLength` to `parseSeparator`); and four parse steps
in a row strictly increase the index. -/
theorem FeedData_loop_ends (d : NetStringDecoder) (data : List UInt8) :
    (∀ fuel, 4 * data.length + 3 ≤ fuel →
        NetStringDecoder.feedLoop fuel d 0 data = d.FeedData data) ∧
      d.FeedData data ≠ Outcome.outOfFuel ∧
      (∀ i, 0 ≤ d.length → i < data.length → ∃ d1 i1, d.parse i data = some (d1, i1)) ∧
      (∀ i d1 i1, d.parse i data = some (d1, i1) →
        i ≤ i1 ∧ i1 ≤ data.length ∧
          (d.state = ParseState.parseSeparator → i1 = i + 1) ∧
          (i1 = i →
            (d.state = ParseState.parseData ∧ d.length = 0 ∧
                d1.state = ParseState.parseEnd) ∨
              (d.state = ParseState.parseEnd ∧ d1.state = ParseState.parseLength) ∨
              ((d.state = ParseState.parseLength ∨ d.state = ParseState.parseBinLength) ∧
                d1.state = ParseState.parseSeparator))) ∧
      (∀ i d1 i1 d2 i2 d3 i3 d4 i4, d.parse i data = some (d1, i1) →
        d1.parse i1 data = some (d2, i2) → d2.parse i2 data = some (d3, i3) →
        d3.parse i3 data = some (d4, i4) → i < i4) := by
  refine ⟨?_, FeedData_ne_outOfFuel d data, ?_, ?_, ?_⟩
  · intro fuel hf
    have hs : stepsLeft d 0 data ≤ 4 * data.length + 3 := by
      unfold stepsLeft
      omega
    exact feedLoop_fuel_irrelevant fuel (4 * data.length + 4) d 0 data (by omega) (by omega)
  · intro i hl hi
    exact parse_returns_of_nonneg hl hi
  · intro i d1 i1 hp
    obtain ⟨a, b, -⟩ := parse_bounds (parse_index_lt hp) hp
    refine ⟨a, b, fun hs => parseSeparator_advances hs hp, fun hi => ?_⟩
    subst hi
    exact parse_no_advance hp
  · intro i d1 i1 d2 i2 d3 i3 d4 i4 h1 h2 h3 h4
    exact four_steps_advance h1 h2 h3 h4

set_option maxRecDepth 100000 in
/-- C18, the failing run: `NewDecoder` has `length = 0`, yet on the chunk
`"9223372036854775808:x"` not every parse step returns an index. The digits wrap, after the
`':'` at index 19 the decoder is in `parseData` with `length = -2^63` (the decoder
`FeedData "9223372036854775808:"` ends with), the parse step at index 20 panics on the slice
`data[i:i+dataLength]`, and with it the `FeedData` call. -/
theorem parse_step_panics_after_overflow :
    0 ≤ NewDecoder.length ∧
      NewDecoder.FeedData (bytes "9223372036854775808:") =
        Outcome.done
          { NewDecoder with length := -9223372036854775808, state := ParseState.parseData } ∧
      ({ NewDecoder with length := -9223372036854775808, state := ParseState.parseData } :
          NetStringDecoder).parse 20 (bytes "9223372036854775808:x") = none ∧
      NewDecoder.FeedData (bytes "9223372036854775808:x") = Outcome.panic := by
  decide

end Netstringer
